import Mathlib

/-!
Verification development for the Minions agent-orchestration core.

The TypeScript sources are shallowly embedded into Lean:
  - `src/src/types.ts`       — record types (Run, AgentTask, BlackboardEntry, plans)
  - `src/src/blackboard.ts`  — the PostgreSQL-backed store, modelled as explicit
    state passing over lists of rows; the SQL upsert and queries are translated
    into list operations; `ORDER BY created_at` is modelled by insertion sort on
    a logical clock (every write stamps `created_at := clock` and bumps the clock,
    matching `created_at = NOW()` refresh on conflict)
  - the enhanced planner (unnamed source `part_005`, imported by the orchestrator
    as `enhanced-planner.js`) — pure functions; the case-insensitive regex tests
    `/a|b|c/i.test(task)` are literal-alternation substring tests and are embedded
    as such
  - `src/src/agent.ts`       — `executeAgent` / `parseAgentOutput`; the Anthropic
    HTTP call, `JSON.parse`, and the other JS runtime primitives are external and
    are passed in as parameters (`CallOutcome`, `JsRuntime`)
  - the orchestrator (unnamed source `part_008`) — `Orchestrator.run`,
    `executeTask`, `synthesize`, with the external executor outcome per role
    passed as a function and the `Promise.all` fan-out of a parallel phase
    linearized to the same in-order fold as the sequential branch (each task
    touches its own task row; blackboard writes are upserts).

Opaque JSON payload values (entry values, agent result `data`) are carried by a
type parameter `V`, following the design note that payloads are opaque documents;
wall-clock timestamps and durations (`started_at`, `execution_time_ms`, ...) are
not modelled.
-/

set_option autoImplicit false
set_option maxRecDepth 8000

namespace Minions

/-! ## Basic enumerations (types.ts) -/

inductive RunStatus where
  | pending | planning | running | completed | failed
  deriving DecidableEq, Repr

inductive TaskStatus where
  | pending | running | completed | failed
  deriving DecidableEq, Repr

/-! ## Plan types (types.ts)

`inputs : Record<string, unknown>` only ever holds string fields
(`{ domain, task }` or `{ task }`) in the planner, so it is modelled as an
association list of strings. -/

structure PlannedTask where
  role : String
  description : String
  inputs : List (String × String)
  dependencies : List String
  tools : List String
  context_tags : List String
  deriving DecidableEq, Repr

structure Phase where
  name : String
  description : String
  tasks : List PlannedTask
  parallel : Bool
  deriving DecidableEq, Repr

structure ExecutionPlan where
  phases : List Phase
  estimated_agents : Nat
  strategy : String
  deriving DecidableEq, Repr

/-- Tool row (types.ts / minions.tools).  Only the fields the core reads
(`name` for planning, `usage` for prompt building) are modelled. -/
structure Tool where
  name : String
  usage : String
  deriving DecidableEq, Repr

/-! ## Store rows (schema in the migration file; types.ts) -/

/-- A row of `minions.entries`.  `version INTEGER DEFAULT 1`, and
`UNIQUE(run_id, key)`.  `created_at` is a logical clock value. -/
structure EntryRec (V : Type) where
  run_id : Nat
  key : String
  value : V
  written_by : String
  tags : List String
  entity_ids : List String
  event_date : Option String
  created_at : Nat
  version : Nat
  deriving DecidableEq, Repr

/-- A row of `minions.tasks`.  `dependencies UUID[]` is a list of task ids. -/
structure TaskRec (V : Type) where
  id : Nat
  run_id : Nat
  role : String
  description : String
  deps : List Nat
  status : TaskStatus
  result : Option V
  confidence : Option ℚ
  error : Option String
  deriving DecidableEq, Repr

/-- A row of `minions.artifacts`. -/
structure ArtifactRec where
  run_id : Nat
  task_id : Option Nat
  name : String
  content_type : String
  content : Option String
  file_path : Option String
  deriving DecidableEq, Repr

/-- The mutable store state: the tables touched by one run, plus id/clock
counters standing for `gen_random_uuid()` and `NOW()`. -/
structure SysState (V : Type) where
  tasks : List (TaskRec V)
  entries : List (EntryRec V)
  artifacts : List ArtifactRec
  nextTaskId : Nat
  clock : Nat
  deriving Repr

def initState (V : Type) : SysState V :=
  { tasks := [], entries := [], artifacts := [], nextTaskId := 0, clock := 0 }

/-! ## Blackboard store operations (blackboard.ts) -/

/-- Argument record of `Blackboard.writeEntry`.  The optional fields mirror the
TypeScript optional parameters; `writeEntry` applies the `|| []` / `|| null`
defaults exactly as the source does. -/
structure WriteReq (V : Type) where
  run_id : Nat
  key : String
  value : V
  written_by : String
  tags : Option (List String)
  entity_ids : Option (List String)
  event_date : Option String

/-- Does a row belong to the `(run_id, key)` natural key? -/
def keyMatches {V : Type} (runId : Nat) (k : String) (e : EntryRec V) : Bool :=
  e.run_id = runId && e.key = k

/-- `Blackboard.writeEntry`: `INSERT ... ON CONFLICT (run_id, key) DO UPDATE SET
value/written_by/tags/entity_ids/event_date, version = version + 1,
created_at = NOW()`.  On conflict the existing row is updated in place; under
the UNIQUE constraint at most one row matches. -/
def writeEntry {V : Type} (req : WriteReq V) (st : SysState V) : SysState V :=
  if st.entries.any (keyMatches req.run_id req.key) then
    { st with
      entries := st.entries.map (fun e =>
        if keyMatches req.run_id req.key e then
          { e with
            value := req.value
            written_by := req.written_by
            tags := req.tags.getD []
            entity_ids := req.entity_ids.getD []
            event_date := req.event_date
            version := e.version + 1
            created_at := st.clock }
        else e)
      clock := st.clock + 1 }
  else
    { st with
      entries := st.entries ++
        [{ run_id := req.run_id, key := req.key, value := req.value,
           written_by := req.written_by, tags := req.tags.getD [],
           entity_ids := req.entity_ids.getD [], event_date := req.event_date,
           created_at := st.clock, version := 1 }]
      clock := st.clock + 1 }

/-- Query options of `Blackboard.queryEntries`.  JS truthiness: an empty tag
list, an empty author string or `limit: 0` all disable the corresponding
filter, exactly as `if (opts?.tags && opts.tags.length > 0)` etc. do. -/
structure QueryOpts where
  tags : Option (List String) := none
  written_by : Option String := none
  entity_ids : Option (List String) := none
  limit : Option Nat := none

/-- Postgres array overlap `&&`: do the two lists share an element? -/
def overlaps (a b : List String) : Bool :=
  a.any (fun x => b.contains x)

/-- The WHERE clause assembled by `queryEntries`. -/
def queryPred {V : Type} (runId : Nat) (opts : QueryOpts) (e : EntryRec V) : Bool :=
  e.run_id = runId
  && (match opts.tags with
      | some ts => if ts.length > 0 then overlaps e.tags ts else true
      | none => true)
  && (match opts.written_by with
      | some w => if w ≠ "" then e.written_by = w else true
      | none => true)
  && (match opts.entity_ids with
      | some ids => if ids.length > 0 then overlaps e.entity_ids ids else true
      | none => true)

/-- The `ORDER BY created_at` relation. -/
def entryLE {V : Type} (a b : EntryRec V) : Prop :=
  a.created_at ≤ b.created_at

instance {V : Type} : DecidableRel (entryLE (V := V)) :=
  fun a b => inferInstanceAs (Decidable (a.created_at ≤ b.created_at))

instance {V : Type} : IsTotal (EntryRec V) entryLE :=
  ⟨fun a b => Nat.le_total a.created_at b.created_at⟩

instance {V : Type} : IsTrans (EntryRec V) entryLE :=
  ⟨fun _ _ _ hab hbc => Nat.le_trans hab hbc⟩

/-- `Blackboard.queryEntries`: filter, `ORDER BY created_at`, then `LIMIT`
(applied only when the limit is truthy).  SQL `LIMIT n` keeps the first `n`
rows of the ordered result. -/
def queryEntries {V : Type} (st : SysState V) (runId : Nat) (opts : QueryOpts) :
    List (EntryRec V) :=
  let sorted := List.insertionSort entryLE (st.entries.filter (queryPred runId opts))
  match opts.limit with
  | some n => if n ≠ 0 then sorted.take n else sorted
  | none => sorted

/-- `Blackboard.saveArtifact`: plain `INSERT`, with `|| null` defaults. -/
def saveArtifact {V : Type} (runId : Nat) (taskId : Option Nat) (name ctype : String)
    (content : Option String) (filePath : Option String) (st : SysState V) : SysState V :=
  { st with artifacts := st.artifacts ++
      [{ run_id := runId, task_id := taskId, name := name, content_type := ctype,
         content := content, file_path := filePath }] }

/-- `Blackboard.getTasksByRun` (the `ORDER BY started_at` of the source is a
wall-clock ordering and is not modelled; the rows returned are the same). -/
def tasksByRun {V : Type} (st : SysState V) (runId : Nat) : List (TaskRec V) :=
  st.tasks.filter (fun t => t.run_id = runId)

/-! ## Context assembly (orchestrator, executeTask step 1)

`planned.context_tags.length > 0 ? queryEntries(runId, { tags, limit: 20 }) : []`. -/

def assembleContext {V : Type} (st : SysState V) (runId : Nat) (tags : List String) :
    List (EntryRec V) :=
  if tags.length > 0 then
    queryEntries st runId { tags := some tags, limit := some 20 }
  else []

/-! ## Key-uniqueness invariant of the entries table -/

/-- The `UNIQUE(run_id, key)` constraint: no two rows share the natural key. -/
def wfEntries {V : Type} (es : List (EntryRec V)) : Prop :=
  es.Pairwise (fun a b => a.run_id ≠ b.run_id ∨ a.key ≠ b.key)

/-- Number of rows for a `(run, key)` pair. -/
def keyCount {V : Type} (st : SysState V) (runId : Nat) (k : String) : Nat :=
  (st.entries.filter (keyMatches runId k)).length

instance {V : Type} [DecidableEq V] (es : List (EntryRec V)) :
    Decidable (wfEntries es) :=
  inferInstanceAs (Decidable (es.Pairwise _))

/-- The row for a `(run, key)` pair, when present. -/
def findEntry {V : Type} (st : SysState V) (runId : Nat) (k : String) :
    Option (EntryRec V) :=
  st.entries.find? (keyMatches runId k)

/-! ## Enhanced planner (enhanced-planner, unnamed source part_005)

The planner classifies the task text with case-insensitive regex tests whose
patterns are plain literal alternations (`/security|audit|.../i.test(task)`),
i.e. case-insensitive substring tests.  `task.length` is the JS string length;
for the ASCII task texts involved it coincides with the character count used
here. -/

/-- Is `pat` a contiguous substring of `hay`? -/
def containsSub (pat : List Char) : List Char → Bool
  | [] => pat.isEmpty
  | c :: rest => pat.isPrefixOf (c :: rest) || containsSub pat rest

/-- `/a|b|c/i.test(task)` for literal alternatives `a`, `b`, `c`
(all patterns in the planner are lowercase literals; lowercasing is applied
character by character, which on the ASCII texts involved agrees with JS
`toLowerCase`). -/
def rtest (alts : List String) (task : String) : Bool :=
  alts.any (fun a => containsSub a.toList (task.toList.map Char.toLower))

inductive Scope where
  | small | medium | large | enterprise
  deriving DecidableEq, Repr

inductive Risk where
  | low | medium | high
  deriving DecidableEq, Repr

structure TaskComplexity where
  scope : Scope
  domains : List String
  dependencies : List String
  parallelizable : Bool
  riskLevel : Risk
  deriving DecidableEq, Repr

/-- `analyzeTaskComplexity` (part_005).  The sequence of overwriting `if`
statements for `scope` and `riskLevel` is rendered as nested conditionals
with the last assignment taking precedence. -/
def analyzeTaskComplexity (task : String) : TaskComplexity :=
  let domains : List String :=
    (if rtest ["security", "audit", "vulnerability", "penetration"] task then ["security"] else []) ++
    (if rtest ["database", "postgres", "sql", "query"] task then ["database"] else []) ++
    (if rtest ["api", "rest", "graphql", "endpoint"] task then ["api"] else []) ++
    (if rtest ["frontend", "ui", "react", "vue", "angular"] task then ["frontend"] else []) ++
    (if rtest ["backend", "server", "microservice"] task then ["backend"] else []) ++
    (if rtest ["devops", "docker", "kubernetes", "deployment"] task then ["devops"] else []) ++
    (if rtest ["research", "analyze", "investigate"] task then ["research"] else []) ++
    (if rtest ["test", "testing", "qa"] task then ["testing"] else [])
  let scope : Scope :=
    if rtest ["enterprise", "platform", "system", "architecture"] task then .enterprise
    else if task.length > 500 || domains.length > 3 then .large
    else if task.length > 200 || domains.length > 2 then .medium
    else .small
  let riskLevel : Risk :=
    if rtest ["delete", "remove", "destroy", "nuclear"] task then .high
    else if rtest ["production", "live", "critical", "security"] task then .medium
    else .low
  let dependencies : List String :=
    (if rtest ["after", "once", "when", "require", "depend"] task then ["sequential"] else []) ++
    (if rtest ["and", "also", "plus", "additionally"] task then ["parallel"] else [])
  { scope := scope
    domains := if domains.isEmpty then ["general"] else domains
    dependencies := dependencies
    parallelizable := !(dependencies.contains "sequential")
    riskLevel := riskLevel }

/-- The helper the planner source names `filter`: keep the wanted tool names
that are available, preserving the wanted order. -/
def filterTools (wanted available : List String) : List String :=
  wanted.filter (fun t => available.contains t)

/-- `getToolsForDomain`: the fixed domain→tool whitelist intersected with the
available tools (`domainTools[domain] || domainTools.general`). -/
def getToolsForDomain (domain : String) (availableTools : List String) : List String :=
  let domainTools : List String :=
    if domain = "security" then ["shell_exec", "file_read", "web_fetch"]
    else if domain = "database" then ["postgres_query", "shell_exec", "file_read"]
    else if domain = "api" then ["web_fetch", "shell_exec", "file_read", "file_write"]
    else if domain = "frontend" then ["file_read", "file_write", "shell_exec", "web_fetch"]
    else if domain = "backend" then ["file_read", "file_write", "shell_exec", "postgres_query"]
    else if domain = "devops" then ["shell_exec", "file_read", "file_write"]
    else if domain = "research" then ["web_search", "web_fetch", "file_write"]
    else if domain = "testing" then ["shell_exec", "file_read"]
    else availableTools
  filterTools domainTools availableTools

/-- `createMultiDomainPlan` (part_005). -/
def createMultiDomainPlan (task : String) (complexity : TaskComplexity)
    (tools : List String) : List Phase :=
  let analysisTasks : List PlannedTask := complexity.domains.map (fun domain =>
    { role := "domain_analyst"
      description := "Analyze the " ++ domain ++ " aspects of: " ++ task ++
        ". Identify requirements, constraints, and dependencies specific to " ++ domain ++ "."
      inputs := [("domain", domain), ("task", task)]
      dependencies := []
      tools := getToolsForDomain domain tools
      context_tags := [] })
  [{ name := "Phase 1: Domain Analysis"
     description := "Analyze each domain aspect in parallel"
     tasks := analysisTasks
     parallel := true },
   { name := "Phase 2: Architecture Planning"
     description := "Create unified architecture plan"
     tasks := [{ role := "architect"
                 description := "Design the overall architecture for: " ++ task ++
                   ". Integrate insights from domain analysis and create implementation roadmap."
                 inputs := [("task", task)]
                 dependencies := analysisTasks.map (fun t => t.role)
                 tools := filterTools ["file_read", "file_write"] tools
                 context_tags := ["domain_analysis"] }]
     parallel := false },
   { name := "Phase 3: Parallel Implementation"
     description := "Implement each domain component in parallel"
     tasks := complexity.domains.map (fun domain =>
       { role := domain ++ "_developer"
         description := "Implement the " ++ domain ++ " components for: " ++ task ++
           ". Follow the architecture plan and integrate with other components."
         inputs := [("domain", domain), ("task", task)]
         dependencies := ["architect"]
         tools := getToolsForDomain domain tools
         context_tags := ["architecture"] })
     parallel := true }]

/-- `createLargeTaskPlan` (part_005). -/
def createLargeTaskPlan (task : String) (_complexity : TaskComplexity)
    (tools : List String) : List Phase :=
  [{ name := "Phase 1: Research & Planning"
     description := "Thorough research and detailed planning"
     tasks := [{ role := "researcher"
                 description := "Research and plan for: " ++ task ++
                   ". Create detailed requirements and approach."
                 inputs := [("task", task)]
                 dependencies := []
                 tools := filterTools ["web_search", "web_fetch", "file_write"] tools
                 context_tags := [] }]
     parallel := false },
   { name := "Phase 2: Implementation"
     description := "Execute the implementation"
     tasks := [{ role := "developer"
                 description := "Implement: " ++ task ++
                   ". Follow the research and planning guidelines."
                 inputs := [("task", task)]
                 dependencies := ["researcher"]
                 tools := filterTools ["file_read", "file_write", "shell_exec", "github_cli"] tools
                 context_tags := ["research"] }]
     parallel := false },
   { name := "Phase 3: Testing & Validation"
     description := "Test and validate the implementation"
     tasks := [{ role := "tester"
                 description := "Test and validate: " ++ task ++
                   ". Ensure quality and correctness."
                 inputs := [("task", task)]
                 dependencies := ["developer"]
                 tools := filterTools ["shell_exec", "file_read"] tools
                 context_tags := ["implementation"] }]
     parallel := false }]

/-- `createStandardPlan` (part_005): conditional research and implementation
phases from the textual intent triggers, with a single-executor fallback. -/
def createStandardPlan (task : String) (_complexity : TaskComplexity)
    (tools : List String) : List Phase :=
  let phases : List Phase :=
    if rtest ["research", "analyze", "investigate"] task then
      [{ name := "Phase 1: Research"
         description := "Research and analyze the topic"
         tasks := [{ role := "researcher"
                     description := task
                     inputs := [("task", task)]
                     dependencies := []
                     tools := filterTools ["web_search", "web_fetch"] tools
                     context_tags := [] }]
         parallel := false }]
    else []
  let phases : List Phase :=
    if rtest ["build", "create", "implement", "develop"] task then
      let dependencies : List String := if phases.length > 0 then ["researcher"] else []
      phases ++
        [{ name := "Phase " ++ toString (phases.length + 1) ++ ": Implementation"
           description := "Build and implement the solution"
           tasks := [{ role := "developer"
                       description := task
                       inputs := [("task", task)]
                       dependencies := dependencies
                       tools := filterTools ["file_read", "file_write", "shell_exec", "github_cli"] tools
                       context_tags := if dependencies.length > 0 then ["research"] else [] }]
           parallel := false }]
    else phases
  if phases.isEmpty then
    [{ name := "Phase 1: Execute"
       description := "Execute the task"
       tasks := [{ role := "executor"
                   description := task
                   inputs := [("task", task)]
                   dependencies := []
                   tools := tools
                   context_tags := [] }]
       parallel := false }]
  else phases

/-- `createValidationPhase` (part_005).  The source leaves `dependencies: []`
with the comment that it "will be set based on previous phases"; no code ever
sets it. -/
def createValidationPhase (task : String) (phaseNum : Nat)
    (tools : List String) : Phase :=
  { name := "Phase " ++ toString phaseNum ++ ": Validation"
    description := "Validate and verify all work for safety"
    tasks := [{ role := "validator"
                description := "Carefully validate all work done for: " ++ task ++
                  ". Check for errors, security issues, and compliance."
                inputs := [("task", task)]
                dependencies := []
                tools := filterTools ["file_read", "shell_exec"] tools
                context_tags := ["implementation", "research"] }]
    parallel := false }

/-- The shared-dependency test inside `optimizeParallelExecution`.  The JS
reference inequality `other !== t` is rendered as structural inequality; the
tasks of any constructed phase are pairwise structurally distinct. -/
def hasSharedDependencies (ts : List PlannedTask) : Bool :=
  ts.any (fun t => ts.any (fun other =>
    other != t && t.dependencies.any (fun dep => other.dependencies.contains dep)))

/-- `optimizeParallelExecution` (part_005): flips `parallel` to `true` on a
phase with more than one task and no shared dependencies; it never clears the
flag on a phase already marked parallel. -/
def optimizeParallelExecution (phases : List Phase) : List Phase :=
  phases.map (fun phase =>
    if phase.tasks.length > 1 then
      if !hasSharedDependencies phase.tasks then { phase with parallel := true }
      else phase
    else phase)

def scopeStr : Scope → String
  | .small => "small"
  | .medium => "medium"
  | .large => "large"
  | .enterprise => "enterprise"

/-- `generateStrategy` (part_005). -/
def generateStrategy (phases : List Phase) (complexity : TaskComplexity) : String :=
  let totalTasks := (phases.map (fun p => p.tasks.length)).sum
  let parallelPhases := (phases.filter (fun p => p.parallel)).length
  toString totalTasks ++ " agents across " ++ toString phases.length ++ " phases (" ++
    toString parallelPhases ++ " parallel) - " ++ scopeStr complexity.scope ++ " " ++
    String.intercalate "+" complexity.domains ++ " task"

/-- `generateEnhancedPlan` (part_005): template selection by scope/domain
count, optional validation phase for high risk, then parallel optimization. -/
def generateEnhancedPlan (task : String) (tools : List Tool) : ExecutionPlan :=
  let complexity := analyzeTaskComplexity task
  let availableToolNames := tools.map (fun t => t.name)
  let phases : List Phase :=
    if complexity.scope = .enterprise || complexity.domains.length > 3 then
      createMultiDomainPlan task complexity availableToolNames
    else if complexity.scope = .large then
      createLargeTaskPlan task complexity availableToolNames
    else
      createStandardPlan task complexity availableToolNames
  let phases : List Phase :=
    if complexity.riskLevel = .high then
      phases ++ [createValidationPhase task (phases.length + 1) availableToolNames]
    else phases
  let phases := optimizeParallelExecution phases
  { phases := phases
    estimated_agents := (phases.map (fun p => p.tasks.length)).sum
    strategy := generateStrategy phases complexity }

/-! ## Agent results and the external JS runtime (types.ts, agent.ts)

`JSON.parse`, `String(...)`, `typeof`, truthiness and `JSON.stringify` are JS
runtime primitives, external to the repository code; they are passed in as an
explicit runtime record.  `V` is the universe of opaque JS/JSON document
values. -/

structure BlackboardWrite (V : Type) where
  key : String
  value : V
  tags : List String
  entity_ids : Option (List String)
  event_date : Option String
  deriving DecidableEq

structure ArtifactWrite where
  name : String
  content_type : String
  content : String
  deriving DecidableEq, Repr

structure AgentResult (V : Type) where
  success : Bool
  data : Option V
  entries : List (BlackboardWrite V)
  artifacts : List ArtifactWrite
  confidence : ℚ
  error : Option String
  deriving DecidableEq

/-- Outcome of the JS property access `parsed.result`: it can throw a
`TypeError` (access on `null`), yield a falsy/absent value, or yield a truthy
value. -/
inductive FieldAccess (V : Type) where
  | throws
  | falsy
  | value (v : V)

/-- The JS runtime primitives used by `parseAgentOutput` and `synthesize`. -/
structure JsRuntime (V : Type) where
  /-- `JSON.parse`, `none` when it throws a `SyntaxError`. -/
  jsonParse : String → Option V
  /-- the guarded access `if (parsed.result)`. -/
  resultField : V → FieldAccess V
  /-- the unchecked TS cast of a parsed document to `AgentResult`. -/
  asAgentResult : V → AgentResult V
  /-- `String(v)`. -/
  jsToString : V → String
  /-- a JS string is itself a document value. -/
  ofString : String → V
  /-- `typeof v === 'string' ? some v : none`. -/
  asString : V → Option String
  /-- JS truthiness of a value. -/
  truthy : V → Bool
  /-- `JSON.stringify(v, null, 2)`. -/
  stringify : V → String

/-- The suffix of `hay` after the first occurrence of `pat`. -/
def afterSub (pat : List Char) : List Char → Option (List Char)
  | [] => if pat.isEmpty then some [] else none
  | c :: rest =>
    if pat.isPrefixOf (c :: rest) then some ((c :: rest).drop pat.length)
    else afterSub pat rest

/-- The portion of `hay` strictly before the first occurrence of `pat`. -/
def beforeSub (pat : List Char) : List Char → Option (List Char)
  | [] => if pat.isEmpty then some [] else none
  | c :: rest =>
    if pat.isPrefixOf (c :: rest) then some []
    else (beforeSub pat rest).map (fun l => c :: l)

/-- The capture of `output.match(` the fenced-json-block regex `)`, already
trimmed (the source always trims the capture before parsing; the lazy body of
the regex reaches exactly to the first closing fence). -/
def extractJsonBlock (s : String) : Option String :=
  (afterSub "```json".toList s.toList).bind (fun suffix =>
    (beforeSub "```".toList suffix).map (fun body => (String.mk body).trim))

/-- `parseAgentOutput` (agent.ts lines 194-238): fenced block first, then the
whole output as JSON (with the claude-CLI `result` wrapper handling), and
finally the total fallback returning the raw trimmed text with confidence
0.3.  Every `JSON.parse` failure and the possible `TypeError` on
`parsed.result` land in the same `catch`. -/
def parseAgentOutput {V : Type} (rt : JsRuntime V) (output : String) : AgentResult V :=
  let fallback : AgentResult V :=
    { success := true, data := some (rt.ofString output.trim), entries := [],
      artifacts := [], confidence := 3/10, error := none }
  match (extractJsonBlock output).bind rt.jsonParse with
  | some j => rt.asAgentResult j
  | none =>
    match rt.jsonParse output.trim with
    | some parsed =>
      match rt.resultField parsed with
      | .throws => fallback
      | .falsy => rt.asAgentResult parsed
      | .value resVal =>
        match (extractJsonBlock (rt.jsToString resVal)).bind rt.jsonParse with
        | some j => rt.asAgentResult j
        | none =>
          { success := true, data := some resVal, entries := [], artifacts := [],
            confidence := 1/2, error := none }
    | none => fallback

/-- Outcome of the Anthropic API `fetch` in `executeAgent` (agent.ts): the
abort timer fired, the call failed some other way (rejected fetch, non-ok
status, empty content — all raised and caught in the same handler), or text
was returned. -/
inductive CallOutcome where
  | timeout
  | failed (msg : String)
  | ok (text : String)

/-- `const timeoutSec = opts?.timeout || 300`: an absent — or falsy, i.e.
zero — timeout option falls back to 300 seconds. -/
def resolveTimeoutSec (optTimeout : Option Nat) : Nat :=
  match optTimeout with
  | some t => if t = 0 then 300 else t
  | none => 300

/-- `executeAgent` (agent.ts lines 104-189) as a function of the external call
outcome.  The timeout branch synthesizes a failure result with confidence 0
and empty entry/artifact lists; there is no retry — the function returns it
directly.  (The `ANTHROPIC_API_KEY` guard throws before this `try` and is
modelled at the orchestrator level as a thrown task outcome.) -/
def executeAgent {V : Type} (rt : JsRuntime V) (outcome : CallOutcome)
    (timeoutSec : Nat) : AgentResult V :=
  match outcome with
  | .timeout =>
    { success := false, data := none, entries := [], artifacts := [], confidence := 0,
      error := some ("Agent timed out after " ++ toString timeoutSec ++ "s") }
  | .failed msg =>
    { success := false, data := none, entries := [], artifacts := [], confidence := 0,
      error := some ("Agent execution failed: " ++ msg) }
  | .ok text => parseAgentOutput rt text

/-! ## Orchestrator (unnamed source part_008) -/

/-- `result.error || null` and `artifact.content || null`: JS `||` maps the
empty string to `null` as well. -/
def jsOrNull (o : Option String) : Option String :=
  match o with
  | some s => if s = "" then none else some s
  | none => none

/-- What one `executeAgent` invocation does for a given task, seen from the
orchestrator: either it returned an `AgentResult` (including the synthesized
timeout/failure results) or it threw before its own `try` (e.g. the missing
API key guard), which `executeTask` catches. -/
inductive TaskOutcome (V : Type) where
  | result (r : AgentResult V)
  | thrown (msg : String)

/-- `Blackboard.updateTask`: `UPDATE minions.tasks SET ... WHERE id = $n`. -/
def mapTask {V : Type} (taskId : Nat) (f : TaskRec V → TaskRec V)
    (st : SysState V) : SysState V :=
  { st with tasks := st.tasks.map (fun t => if t.id = taskId then f t else t) }

/-- `Blackboard.createTask`: insert a pending row, returning its fresh id. -/
def createTask {V : Type} (runId : Nat) (planned : PlannedTask) (depIds : List Nat)
    (st : SysState V) : Nat × SysState V :=
  (st.nextTaskId,
   { st with
     tasks := st.tasks ++
       [{ id := st.nextTaskId, run_id := runId, role := planned.role,
          description := planned.description, deps := depIds, status := .pending,
          result := none, confidence := none, error := none }]
     nextTaskId := st.nextTaskId + 1 })

/-- Step 3 of `Orchestrator.run` (lines 51-71): for every planned task in
phase order, resolve the declared dependency roles through the map built so
far — `map(dep => taskIdMap.get(dep)).filter(id => !!id)` silently drops any
role not yet assigned an id — persist the task row, and record role → id
(`Map.set` overwrites, modelled by consing with first-match lookup). -/
def materializeTasks {V : Type} (runId : Nat) :
    List PlannedTask → List (String × Nat) → SysState V →
    List (String × Nat) × SysState V
  | [], m, st => (m, st)
  | p :: ps, m, st =>
    let depIds := p.dependencies.filterMap (fun dep => m.lookup dep)
    let (tid, st1) := createTask runId p depIds st
    materializeTasks runId ps ((p.role, tid) :: m) st1

/-- The planned tasks of a plan in traversal order (phases in array order,
tasks in array order within each phase). -/
def flatTasks (plan : ExecutionPlan) : List PlannedTask :=
  plan.phases.flatMap (fun ph => ph.tasks)

/-- `terminalStatus`: `result.success ? 'completed' : 'failed'`. -/
def terminalStatus {V : Type} (r : AgentResult V) : TaskStatus :=
  if r.success then .completed else .failed

/-- The `writeEntry` argument the orchestrator builds for a returned entry:
keyed `role:entryKey`, authored by the role. -/
def entryReq {V : Type} (runId : Nat) (role : String) (w : BlackboardWrite V) :
    WriteReq V :=
  { run_id := runId, key := role ++ ":" ++ w.key, value := w.value,
    written_by := role, tags := some w.tags,
    entity_ids := w.entity_ids, event_date := w.event_date }

/-- The artifact row the orchestrator saves for a returned artifact. -/
def artifactReq (runId tid : Nat) (a : ArtifactWrite) : ArtifactRec :=
  { run_id := runId, task_id := some tid, name := a.name,
    content_type := a.content_type, content := jsOrNull (some a.content),
    file_path := none }

/-- `Orchestrator.executeTask` (lines 153-249): look the task id up (logging
and returning when absent), mark it running, then either persist the returned
entries (keyed `role:entryKey`) and artifacts and store the terminal status,
or — when the call threw — mark the task failed with the error message.  The
context query and prompt construction read the store without changing it and
are not part of the state transition. -/
def executeTask {V : Type} (runId : Nat) (planned : PlannedTask)
    (roleMap : List (String × Nat)) (outcome : TaskOutcome V)
    (st : SysState V) : SysState V :=
  match roleMap.lookup planned.role with
  | none => st
  | some taskId =>
    let st1 := mapTask taskId (fun t => { t with status := .running }) st
    match outcome with
    | .thrown msg =>
      mapTask taskId (fun t => { t with status := .failed, error := some msg }) st1
    | .result r =>
      let st2 := r.entries.foldl (fun s w =>
        writeEntry (entryReq runId planned.role w) s) st1
      let st3 := r.artifacts.foldl (fun s a =>
        saveArtifact runId (some taskId) a.name a.content_type
          (jsOrNull (some a.content)) none s) st2
      mapTask taskId (fun t =>
        { t with
            status := terminalStatus r
            result := r.data
            confidence := some r.confidence
            error := jsOrNull r.error }) st3

structure TaskSummary (V : Type) where
  role : String
  status : TaskStatus
  confidence : Option ℚ
  result : Option V
  deriving DecidableEq

structure EntrySummary (V : Type) where
  key : String
  written_by : String
  tags : List String
  value : V
  deriving DecidableEq

/-- The result document assembled at step 5 of `Orchestrator.run`. -/
structure RunResult (V : Type) where
  tasks : List (TaskSummary V)
  entries : List (EntrySummary V)
  summary : String
  deriving DecidableEq

/-- A row of `minions.runs` as `Orchestrator.run` leaves it. -/
structure RunRec (V : Type) where
  id : Nat
  task : String
  status : RunStatus
  plan : Option ExecutionPlan
  result : Option (RunResult V)
  error : Option String

/-- `${task.error}` interpolates a SQL NULL as the string `"null"`. -/
def errStr (o : Option String) : String :=
  match o with
  | some s => s
  | none => "null"

/-- The per-completed-task section of the synthesized report:
`typeof task.result === 'string'` renders the string itself, any other truthy
value is stringified into a fenced block, a null result adds nothing. -/
def resultSection {V : Type} (rt : JsRuntime V) (res : Option V) : String :=
  match res with
  | none => ""
  | some v =>
    match rt.asString v with
    | some s => s ++ "\n\n"
    | none =>
      if rt.truthy v then "```json\n" ++ rt.stringify v ++ "\n```\n\n" else ""

/-- `Orchestrator.synthesize` (lines 254-278).  The `entries` argument is
unused by the source body as well. -/
def synthesize {V : Type} (rt : JsRuntime V) (tasks : List (TaskRec V))
    (_entries : List (EntryRec V)) : String :=
  let succeeded := tasks.filter (fun t => t.status = TaskStatus.completed)
  let failed := tasks.filter (fun t => t.status = TaskStatus.failed)
  let summary := "## Results\n\n" ++ "**" ++ toString succeeded.length ++ "/" ++
    toString tasks.length ++ "** agents completed successfully.\n\n"
  let summary := succeeded.foldl
    (fun acc t => acc ++ ("### " ++ t.role ++ "\n" ++ resultSection rt t.result)) summary
  if failed.length > 0 then
    failed.foldl (fun acc t => acc ++ ("- **" ++ t.role ++ "**: " ++ errStr t.error ++ "\n"))
      (summary ++ "### Failures\n")
  else summary

/-- `Orchestrator.run` (lines 29-148).  The fallible planning/persistence
prefix is the `Except` argument: on error the `catch` marks the run failed
with the message and no result document.  On success the plan is materialized,
every phase is executed in array order — the `Promise.all` fan-out of a
parallel phase is linearized to the same in-order fold as the sequential
branch — and the run is completed with the synthesized result.  Task-level
errors never reach the `catch`: `executeTask` swallows them.  The blackboard
is modelled infallible, so the only fatal channel is the planning argument. -/
def runMinions {V : Type} (rt : JsRuntime V) (taskText : String)
    (planResult : Except String ExecutionPlan)
    (outcomes : String → TaskOutcome V) (runId : Nat) (st0 : SysState V) :
    RunRec V × SysState V :=
  match planResult with
  | .error msg =>
    ({ id := runId, task := taskText, status := .failed, plan := none,
       result := none, error := some msg }, st0)
  | .ok plan =>
    let ms := materializeTasks runId (flatTasks plan) [] st0
    let st2 := plan.phases.foldl (fun s ph =>
      ph.tasks.foldl (fun s2 p => executeTask runId p ms.1 (outcomes p.role) s2) s) ms.2
    let allTasks := tasksByRun st2 runId
    let allEntries := queryEntries st2 runId {}
    ({ id := runId, task := taskText, status := .completed, plan := some plan,
       result := some
         { tasks := allTasks.map (fun t =>
             { role := t.role, status := t.status, confidence := t.confidence,
               result := t.result })
           entries := allEntries.map (fun e =>
             { key := e.key, written_by := e.written_by, tags := e.tags,
               value := e.value })
           summary := synthesize rt allTasks allEntries }
       error := none }, st2)

/-! # Theorems -/

/-! ## C2: the entry upsert -/

theorem keyMatches_iff {V : Type} (r : Nat) (k : String) (e : EntryRec V) :
    keyMatches r k e = true ↔ e.run_id = r ∧ e.key = k := by
  simp [keyMatches]

theorem wf_filter_singleton {V : Type} (es : List (EntryRec V)) (r : Nat) (k : String)
    (hwf : wfEntries es) (h : es.any (keyMatches r k) = true) :
    ∃ e, es.filter (keyMatches r k) = [e] := by
  induction es with
  | nil => simp at h
  | cons a es ih =>
    rw [wfEntries, List.pairwise_cons] at hwf
    by_cases ha : keyMatches r k a = true
    · refine ⟨a, ?_⟩
      rw [List.filter_cons_of_pos ha]
      have hnil : es.filter (keyMatches r k) = [] := by
        rw [List.filter_eq_nil_iff]
        intro b hb hbm
        rcases (keyMatches_iff r k a).mp ha with ⟨har, hak⟩
        rcases (keyMatches_iff r k b).mp hbm with ⟨hbr, hbk⟩
        rcases hwf.1 b hb with h1 | h1
        · exact h1 (har.trans hbr.symm)
        · exact h1 (hak.trans hbk.symm)
      rw [hnil]
    · have h' : es.any (keyMatches r k) = true := by
        rcases List.any_eq_true.mp h with ⟨x, hx, hxm⟩
        rcases List.mem_cons.mp hx with hx | hx
        · exact absurd (hx ▸ hxm) ha
        · exact List.any_eq_true.mpr ⟨x, hx, hxm⟩
      rcases ih hwf.2 h' with ⟨e, he⟩
      exact ⟨e, by rw [List.filter_cons_of_neg (by simpa using ha), he]⟩

/-- C2: repeated upsert-writes to one `(run_id, key)` pair keep exactly one row;
the stored value is the value of the most recent write, and each write bumps the
version by exactly one (from 1 on first insert), so versions strictly increase. -/
theorem writeEntry_upsert {V : Type} (st : SysState V) (req : WriteReq V)
    (hwf : wfEntries st.entries) :
    wfEntries ((writeEntry req st).entries) ∧
    keyCount (writeEntry req st) req.run_id req.key = 1 ∧
    ∃ e, findEntry (writeEntry req st) req.run_id req.key = some e ∧
      e.value = req.value ∧
      e.version = (match findEntry st req.run_id req.key with
                   | some old => old.version + 1
                   | none => 1) := by
  by_cases h : st.entries.any (keyMatches req.run_id req.key) = true
  · -- conflict: the matching row is updated in place
    have hentries : (writeEntry req st).entries =
        st.entries.map (fun e =>
          if keyMatches req.run_id req.key e then
            { e with
              value := req.value
              written_by := req.written_by
              tags := req.tags.getD []
              entity_ids := req.entity_ids.getD []
              event_date := req.event_date
              version := e.version + 1
              created_at := st.clock }
          else e) := by
      simp only [writeEntry, h, if_true]
    set f : EntryRec V → EntryRec V := fun e =>
      if keyMatches req.run_id req.key e then
        { e with
          value := req.value
          written_by := req.written_by
          tags := req.tags.getD []
          entity_ids := req.entity_ids.getD []
          event_date := req.event_date
          version := e.version + 1
          created_at := st.clock }
      else e with hf
    have hmask : ∀ e : EntryRec V,
        keyMatches req.run_id req.key (f e) = keyMatches req.run_id req.key e := by
      intro e
      by_cases he : keyMatches req.run_id req.key e = true
      · simp only [hf, he, if_true]
        rcases (keyMatches_iff _ _ e).mp he with ⟨h1, h2⟩
        simp [keyMatches_iff, h1, h2, he]
      · simp [hf, he]
    rcases wf_filter_singleton st.entries req.run_id req.key hwf h with ⟨e0, he0⟩
    have hfind0 : findEntry st req.run_id req.key = some e0 := by
      rw [findEntry, ← List.filter_head?, he0]; rfl
    have he0m : keyMatches req.run_id req.key e0 = true := by
      have : e0 ∈ st.entries.filter (keyMatches req.run_id req.key) := by
        rw [he0]; exact List.mem_singleton.mpr rfl
      exact (List.mem_filter.mp this).2
    refine ⟨?_, ?_, ?_⟩
    · rw [hentries, wfEntries, List.pairwise_map]
      refine hwf.imp ?_
      intro a b hab
      by_cases hma : keyMatches req.run_id req.key a = true <;>
        by_cases hmb : keyMatches req.run_id req.key b = true <;>
          simpa [hf, hma, hmb] using hab
    · rw [keyCount, hentries, List.filter_map]
      have : (fun e => keyMatches req.run_id req.key (f e)) =
          (keyMatches req.run_id req.key) := funext hmask
      simp only [Function.comp_def, this, he0, List.map_cons, List.length_cons,
        List.map_nil, List.length_nil]
    · refine ⟨f e0, ?_, ?_, ?_⟩
      · rw [findEntry, hentries, List.find?_map]
        have : (keyMatches req.run_id req.key ∘ f) = keyMatches req.run_id req.key :=
          funext hmask
        rw [this]
        rw [findEntry] at hfind0
        rw [hfind0]; rfl
      · simp [hf, he0m]
      · rw [hfind0]
        simp [hf, he0m]
  · -- no conflict: a fresh row with version 1 is appended
    have hentries : (writeEntry req st).entries = st.entries ++
        [{ run_id := req.run_id, key := req.key, value := req.value,
           written_by := req.written_by, tags := req.tags.getD [],
           entity_ids := req.entity_ids.getD [], event_date := req.event_date,
           created_at := st.clock, version := 1 }] := by
      simp only [writeEntry, h, if_false, Bool.false_eq_true]
    have hnone : ∀ e ∈ st.entries, ¬ keyMatches req.run_id req.key e = true :=
      List.any_eq_false.mp (Bool.eq_false_iff.mpr h)
    have hnewm : keyMatches req.run_id req.key
        ({ run_id := req.run_id, key := req.key, value := req.value,
           written_by := req.written_by, tags := req.tags.getD [],
           entity_ids := req.entity_ids.getD [], event_date := req.event_date,
           created_at := st.clock, version := 1 } : EntryRec V) = true := by
      simp [keyMatches_iff]
    refine ⟨?_, ?_, ?_⟩
    · rw [hentries, wfEntries, List.pairwise_append]
      refine ⟨hwf, List.pairwise_singleton _ _, ?_⟩
      intro a ha b hb
      have hb' : b = _ := List.mem_singleton.mp hb
      subst hb'
      have := hnone a ha
      rcases Decidable.not_and_iff_or_not.mp (fun hc => this ((keyMatches_iff _ _ a).mpr hc)) with h1 | h1
      · exact Or.inl h1
      · exact Or.inr h1
    · rw [keyCount, hentries, List.filter_append,
        List.filter_eq_nil_iff.mpr hnone, List.filter_cons_of_pos hnewm]
      simp
    · have hfind0 : findEntry st req.run_id req.key = none :=
        List.find?_eq_none.mpr hnone
      refine ⟨{ run_id := req.run_id, key := req.key, value := req.value,
                written_by := req.written_by, tags := req.tags.getD [],
                entity_ids := req.entity_ids.getD [], event_date := req.event_date,
                created_at := st.clock, version := 1 }, ?_, rfl, ?_⟩
      · rw [findEntry, hentries, List.find?_append, List.find?_eq_none.mpr hnone,
          Option.none_or]
        simp [List.find?_cons, hnewm]
      · rw [hfind0]

def c2ReqA : WriteReq String :=
  { run_id := 0, key := "k", value := "A", written_by := "writer",
    tags := none, entity_ids := none, event_date := none }

def c2ReqB : WriteReq String :=
  { run_id := 0, key := "k", value := "B", written_by := "writer",
    tags := none, entity_ids := none, event_date := none }

def c2Store1 : SysState String := writeEntry c2ReqA (initState String)

/-- Witness for C2: writing values A then B to key `"k"` of run 0 leaves exactly
one row for the pair, with value B and version 2. -/
theorem writeEntry_upsert_witness :
    keyCount (writeEntry c2ReqB c2Store1) 0 "k" = 1 ∧
    (findEntry (writeEntry c2ReqB c2Store1) 0 "k").map (fun e => (e.value, e.version)) =
      some ("B", 2) :=
  ⟨(writeEntry_upsert c2Store1 c2ReqB (by decide)).2.1, by decide⟩

/-! ## C3: context assembly -/

def c3Req (i : Nat) : WriteReq String :=
  { run_id := 0, key := "k" ++ toString i, value := "v" ++ toString i,
    written_by := "w", tags := some ["t"], entity_ids := none, event_date := none }

/-- A run with 21 tagged entries, written at clock times 0, 1, ..., 20. -/
def c3Store : SysState String :=
  (List.range 21).foldl (fun s i => writeEntry (c3Req i) s) (initState String)

/-- C3 counterexample: with 21 matching entries and the configured maximum of
20, the assembled context is the 20 OLDEST entries (`ORDER BY created_at` then
`LIMIT 20` keeps the first rows of the ascending order); the most recent
matching entry, key `"k20"` written at time 20, is the one dropped — not the
oldest, contradicting the claim that the cap keeps the most recent N. -/
theorem assembleContext_keeps_oldest :
    ((assembleContext c3Store 0 ["t"]).map (fun e => e.key) =
      (List.range 20).map (fun i => "k" ++ toString i)) ∧
    (∀ e ∈ assembleContext c3Store 0 ["t"], e.created_at < 20) ∧
    (∃ e ∈ c3Store.entries, e.key = "k20" ∧ e.created_at = 20 ∧
      e.run_id = 0 ∧ overlaps e.tags ["t"] = true ∧
      ¬ e ∈ assembleContext c3Store 0 ["t"]) := by decide

/-- C3 amended: for a non-empty tag set the assembled context is exactly the
entries of the run whose tag set intersects the requested tags, ordered by
creation time ascending, truncated to the FIRST 20 of that ascending order —
i.e. the oldest 20 are kept and the newest are dropped; when at most 20
entries match, nothing is dropped at all. -/
theorem assembleContext_spec {V : Type} (st : SysState V) (runId : Nat)
    (tags : List String) (h : tags ≠ []) :
    assembleContext st runId tags =
      (List.insertionSort entryLE
        (st.entries.filter (fun e => e.run_id = runId && overlaps e.tags tags))).take 20 ∧
    (assembleContext st runId tags).Sorted entryLE ∧
    ((st.entries.filter (fun e => e.run_id = runId && overlaps e.tags tags)).length ≤ 20 →
      (assembleContext st runId tags).Perm
        (st.entries.filter (fun e => e.run_id = runId && overlaps e.tags tags))) := by
  have hlen : tags.length > 0 := List.length_pos.mpr h
  have hpred : queryPred (V := V) runId
      { tags := some tags, limit := some 20 } =
      (fun e => e.run_id = runId && overlaps e.tags tags) := by
    funext e
    simp [queryPred, if_pos hlen]
  have hmain : assembleContext st runId tags =
      (List.insertionSort entryLE
        (st.entries.filter (fun e => e.run_id = runId && overlaps e.tags tags))).take 20 := by
    rw [assembleContext, if_pos hlen, queryEntries, hpred]
    rfl
  refine ⟨hmain, ?_, ?_⟩
  · rw [hmain]
    exact (List.sorted_insertionSort entryLE _).sublist (List.take_sublist _ _)
  · intro hle
    rw [hmain, List.take_of_length_le]
    · exact List.perm_insertionSort entryLE _
    · exact le_trans (le_of_eq (List.perm_insertionSort entryLE _).length_eq) hle

/-- Witness for the amended C3 theorem at the concrete 21-entry store. -/
theorem assembleContext_spec_witness :
    (["t"] : List String) ≠ [] ∧
    (assembleContext c3Store 0 ["t"]).Sorted entryLE :=
  ⟨by decide, (assembleContext_spec c3Store 0 ["t"] (by decide)).2.1⟩

/-! ## C5 / C6 / C8: planner claims -/

def c5Text : String := "Design an enterprise security and database platform"

def c6Text : String := "Research and delete the temporary files"

def c8Text : String := "Research the top Go web frameworks and create a comparison report"

def demoTools : List Tool :=
  [{ name := "web_search", usage := "u" }, { name := "web_fetch", usage := "u" },
   { name := "file_read", usage := "u" }, { name := "file_write", usage := "u" },
   { name := "shell_exec", usage := "u" }, { name := "postgres_query", usage := "u" }]

/-- The property C5 claims of every produced plan, stated with the planner's
own shared-dependency test: no parallel phase has two tasks sharing a
dependency. -/
def parallelPhasesShareNoDeps (plan : ExecutionPlan) : Bool :=
  plan.phases.all (fun p => !p.parallel || !hasSharedDependencies p.tasks)

/-- C5 counterexample: for an enterprise-scope two-domain task the plan builder
emits the multi-domain template whose Phase 3 is constructed with
`parallel := true` while both of its tasks depend on the same prior role
`"architect"` — two tasks of a parallel phase share a dependency, so the
claimed invariant fails on a produced plan. -/
theorem c5_counterexample :
    parallelPhasesShareNoDeps (generateEnhancedPlan c5Text demoTools) = false ∧
    ((generateEnhancedPlan c5Text demoTools).phases.map (fun p =>
       (p.parallel, p.tasks.map (fun t => (t.role, t.dependencies)))))[2]? =
      some (true, [("security_developer", ["architect"]),
                   ("database_developer", ["architect"])]) := by decide

/-- C5 amended: the parallel OPTIMIZER sets `parallel := true` only on phases
with more than one task and no shared dependency, and never clears the flag;
hence every parallel phase of an optimized plan either was already marked
parallel by the template that built it (as the multi-domain implementation
phase is, despite its shared `"architect"` dependency) or contains no two
tasks sharing a dependency. -/
theorem optimizeParallel_sound (phases : List Phase) (i : Nat)
    (h : i < (optimizeParallelExecution phases).length)
    (hp : ((optimizeParallelExecution phases).get ⟨i, h⟩).parallel = true) :
    ∃ h2 : i < phases.length,
      (phases.get ⟨i, h2⟩).parallel = true ∨
      hasSharedDependencies (phases.get ⟨i, h2⟩).tasks = false := by
  have h2 : i < phases.length := by
    simpa [optimizeParallelExecution] using h
  refine ⟨h2, ?_⟩
  have hget : (optimizeParallelExecution phases).get ⟨i, h⟩ =
      (fun phase =>
        if phase.tasks.length > 1 then
          if !hasSharedDependencies phase.tasks then { phase with parallel := true }
          else phase
        else phase) (phases.get ⟨i, h2⟩) := by
    simp [optimizeParallelExecution]
  set p := phases.get ⟨i, h2⟩ with hpdef
  rw [hget] at hp
  by_cases hl : p.tasks.length > 1
  · by_cases hs : hasSharedDependencies p.tasks = false
    · exact Or.inr hs
    · simp only [hl, if_true, Bool.not_eq_false' ] at hp
      rw [Bool.not_eq_false] at hs
      simp only [hs] at hp
      simpa using Or.inl hp
  · simp only [hl, if_false] at hp
    exact Or.inl hp

def c5WitnessPhase : Phase :=
  { name := "p", description := "d", tasks := [], parallel := true }

/-- Witness for the amended C5 theorem on a concrete already-parallel phase. -/
theorem optimizeParallel_sound_witness :
    ∃ h2 : 0 < ([c5WitnessPhase] : List Phase).length,
      (([c5WitnessPhase] : List Phase).get ⟨0, h2⟩).parallel = true ∨
      hasSharedDependencies (([c5WitnessPhase] : List Phase).get ⟨0, h2⟩).tasks = false :=
  optimizeParallel_sound [c5WitnessPhase] 0 (by decide) (by decide)

/-- C6 (code bug evaluated at the failing input): the task text fires the
high-risk trigger (`"delete"`), so a final validation phase is appended — but
its validator task has an EMPTY dependency list, although the immediately
preceding phase contains the task `"researcher"`.  The source itself annotates
the empty list with "Will be set based on previous phases" and never sets it. -/
theorem c6_validation_deps_empty :
    (analyzeTaskComplexity c6Text).riskLevel = Risk.high ∧
    ((generateEnhancedPlan c6Text demoTools).phases.map (fun p =>
       (p.name, p.tasks.map (fun t => (t.role, t.dependencies))))) =
      [("Phase 1: Research", [("researcher", ([] : List String))]),
       ("Phase 2: Validation", [("validator", ([] : List String))])] := by decide

/-- C8 counterexample: the scenario text is classified with the single domain
`"research"` and scope `small` as claimed, but the produced plan has TWO
phases, not one: the word `"create"` also fires the build trigger, adding an
implementation phase with a developer depending on the researcher. -/
theorem c8_two_phases :
    (analyzeTaskComplexity c8Text).domains = ["research"] ∧
    (analyzeTaskComplexity c8Text).scope = Scope.small ∧
    (generateEnhancedPlan c8Text demoTools).phases.length ≠ 1 ∧
    ((generateEnhancedPlan c8Text demoTools).phases.map (fun p =>
       p.tasks.map (fun t => t.role))) = [["researcher"], ["developer"]] := by decide

/-- C8 amended: for the scenario text, and any available tool set, exactly one
domain `"research"` is detected with scope `small`, and the plan consists of a
research phase whose single researcher task carries the intersection of
`[web_search, web_fetch]` with the available tools, followed by an
implementation phase (fired by `"create"`) whose developer depends on the
researcher. -/
theorem c8_plan_structure (tools : List Tool) :
    (analyzeTaskComplexity c8Text).domains = ["research"] ∧
    (analyzeTaskComplexity c8Text).scope = Scope.small ∧
    (generateEnhancedPlan c8Text tools).phases =
      [{ name := "Phase 1: Research"
         description := "Research and analyze the topic"
         tasks := [{ role := "researcher", description := c8Text,
                     inputs := [("task", c8Text)], dependencies := [],
                     tools := filterTools ["web_search", "web_fetch"]
                       (tools.map (fun t => t.name)),
                     context_tags := [] }]
         parallel := false },
       { name := "Phase 2: Implementation"
         description := "Build and implement the solution"
         tasks := [{ role := "developer", description := c8Text,
                     inputs := [("task", c8Text)], dependencies := ["researcher"],
                     tools := filterTools ["file_read", "file_write", "shell_exec", "github_cli"]
                       (tools.map (fun t => t.name)),
                     context_tags := ["research"] }]
         parallel := false }] := by
  have hc : analyzeTaskComplexity c8Text =
      { scope := .small, domains := ["research"], dependencies := ["parallel"],
        parallelizable := true, riskLevel := .low } := by decide
  refine ⟨by rw [hc], by rw [hc], ?_⟩
  have hr : rtest ["research", "analyze", "investigate"] c8Text = true := by decide
  have hb : rtest ["build", "create", "implement", "develop"] c8Text = true := by decide
  simp [generateEnhancedPlan, hc, createStandardPlan, hr, hb,
    optimizeParallelExecution, hasSharedDependencies]
  decide

/-! ## C7 / C10: the external executor call and result parsing -/

/-- C7: every external-executor invocation runs under a timeout defaulting to
300 seconds (`opts?.timeout || 300`: an absent — or zero, i.e. falsy — option
falls back to 300, any other value is taken as configured), and when the abort
timer fires the core returns the synthesized failure result — success false,
confidence 0, empty entry and artifact lists, the timeout message as error —
directly, with no retry. -/
theorem executeAgent_timeout_spec {V : Type} (rt : JsRuntime V) (optT : Option Nat)
    (t : Nat) (ht : t ≠ 0) :
    resolveTimeoutSec none = 300 ∧
    resolveTimeoutSec (some t) = t ∧
    executeAgent rt CallOutcome.timeout (resolveTimeoutSec optT) =
      { success := false, data := none, entries := [], artifacts := [], confidence := 0,
        error := some ("Agent timed out after " ++ toString (resolveTimeoutSec optT) ++ "s") } := by
  refine ⟨rfl, ?_, rfl⟩
  simp [resolveTimeoutSec, ht]

/-- A minimal concrete instantiation of the external JS runtime primitives over
string documents, used to evaluate the theorems at concrete inputs. -/
def strRuntime : JsRuntime String :=
  { jsonParse := fun _ => none
    resultField := fun _ => .falsy
    asAgentResult := fun v =>
      { success := false, data := some v, entries := [], artifacts := [],
        confidence := 0, error := none }
    jsToString := fun s => s
    ofString := fun s => s
    asString := fun s => some s
    truthy := fun s => s != ""
    stringify := fun s => s }

/-- Witness for C7 with a configured 60-second timeout. -/
theorem executeAgent_timeout_spec_witness :
    (60 : Nat) ≠ 0 ∧
    executeAgent strRuntime CallOutcome.timeout (resolveTimeoutSec (some 60)) =
      { success := false, data := none, entries := [], artifacts := [], confidence := 0,
        error := some ("Agent timed out after " ++ toString (resolveTimeoutSec (some 60)) ++ "s") } :=
  ⟨by decide, (executeAgent_timeout_spec strRuntime (some 60) 60 (by decide)).2.2⟩

/-- C10: result parsing is total and never reports a parse error: when the
output holds no parseable fenced json block and is not itself valid JSON, the
parser returns success - true with the raw trimmed text as data, empty entries
and artifacts and confidence 0.3 — and therefore the orchestrator marks such a
task completed, never failed. -/
theorem parseAgentOutput_total_fallback {V : Type} (rt : JsRuntime V) (output : String)
    (hblock : (extractJsonBlock output).bind rt.jsonParse = none)
    (hwhole : rt.jsonParse output.trim = none) :
    parseAgentOutput rt output =
      { success := true, data := some (rt.ofString output.trim), entries := [],
        artifacts := [], confidence := 3/10, error := none } ∧
    terminalStatus (parseAgentOutput rt output) = TaskStatus.completed ∧
    terminalStatus (executeAgent rt (CallOutcome.ok output) 300) = TaskStatus.completed := by
  have h1 : parseAgentOutput rt output =
      { success := true, data := some (rt.ofString output.trim), entries := [],
        artifacts := [], confidence := 3/10, error := none } := by
    simp only [parseAgentOutput, hblock, hwhole]
  refine ⟨h1, ?_, ?_⟩
  · rw [h1]; rfl
  · show terminalStatus (parseAgentOutput rt output) = TaskStatus.completed
    rw [h1]; rfl

/-- Witness for C10 on a plain-text output that is not JSON. -/
theorem parseAgentOutput_total_fallback_witness :
    (extractJsonBlock "plain answer with no json block").bind strRuntime.jsonParse = none ∧
    strRuntime.jsonParse (String.trim "plain answer with no json block") = none ∧
    parseAgentOutput strRuntime "plain answer with no json block" =
      { success := true,
        data := some (strRuntime.ofString (String.trim "plain answer with no json block")),
        entries := [], artifacts := [], confidence := 3/10, error := none } :=
  ⟨rfl, rfl,
    (parseAgentOutput_total_fallback strRuntime "plain answer with no json block" rfl rfl).1⟩

/-! ## Materializer lemmas and C1 -/

theorem materializeTasks_cons {V : Type} (runId : Nat) (p : PlannedTask)
    (ps : List PlannedTask) (m : List (String × Nat)) (st : SysState V) :
    materializeTasks runId (p :: ps) m st =
      materializeTasks runId ps ((p.role, st.nextTaskId) :: m)
        { st with
          tasks := st.tasks ++
            [{ id := st.nextTaskId, run_id := runId, role := p.role,
               description := p.description,
               deps := p.dependencies.filterMap (fun dep => m.lookup dep),
               status := .pending, result := none, confidence := none, error := none }]
          nextTaskId := st.nextTaskId + 1 } := rfl

theorem materializeTasks_shape {V : Type} (runId : Nat) :
    ∀ (ps : List PlannedTask) (m : List (String × Nat)) (st : SysState V),
    ∃ added, (materializeTasks runId ps m st).2.tasks = st.tasks ++ added ∧
      List.Forall₂ (fun (p : PlannedTask) (t : TaskRec V) =>
        t.role = p.role ∧ t.run_id = runId ∧ t.status = TaskStatus.pending ∧
        t.deps.length ≤ p.dependencies.length) ps added := by
  intro ps
  induction ps with
  | nil =>
    intro m st
    exact ⟨[], by simp [materializeTasks], List.Forall₂.nil⟩
  | cons p ps ih =>
    intro m st
    rw [materializeTasks_cons]
    rcases ih ((p.role, st.nextTaskId) :: m)
        { st with
          tasks := st.tasks ++
            [{ id := st.nextTaskId, run_id := runId, role := p.role,
               description := p.description,
               deps := p.dependencies.filterMap (fun dep => m.lookup dep),
               status := .pending, result := none, confidence := none, error := none }]
          nextTaskId := st.nextTaskId + 1 } with ⟨added, htasks, hfa⟩
    refine ⟨{ id := st.nextTaskId, run_id := runId, role := p.role,
              description := p.description,
              deps := p.dependencies.filterMap (fun dep => m.lookup dep),
              status := .pending, result := none, confidence := none,
              error := none } :: added, ?_, ?_⟩
    · rw [htasks]; simp
    · exact List.Forall₂.cons
        ⟨rfl, rfl, rfl, List.length_filterMap_le _ _⟩ hfa

theorem materializeTasks_ids {V : Type} (runId : Nat) :
    ∀ (ps : List PlannedTask) (m : List (String × Nat)) (st : SysState V),
    (∀ t ∈ st.tasks, t.id < st.nextTaskId) →
    (∀ t ∈ (materializeTasks runId ps m st).2.tasks,
       t.id < (materializeTasks runId ps m st).2.nextTaskId) ∧
    st.nextTaskId ≤ (materializeTasks runId ps m st).2.nextTaskId ∧
    ((st.tasks.map (fun t => t.id)).Nodup →
      (((materializeTasks runId ps m st).2.tasks).map (fun t => t.id)).Nodup) := by
  intro ps
  induction ps with
  | nil =>
    intro m st h
    exact ⟨h, Nat.le_refl _, fun hn => hn⟩
  | cons p ps ih =>
    intro m st h
    rw [materializeTasks_cons]
    have hstep : ∀ t ∈ st.tasks ++
        [({ id := st.nextTaskId, run_id := runId, role := p.role,
            description := p.description,
            deps := p.dependencies.filterMap (fun dep => m.lookup dep),
            status := .pending, result := none, confidence := none,
            error := none } : TaskRec V)], t.id < st.nextTaskId + 1 := by
      intro t ht
      rcases List.mem_append.mp ht with ht | ht
      · exact Nat.lt_succ_of_lt (h t ht)
      · rw [List.mem_singleton.mp ht]
        exact Nat.lt_succ_self _
    rcases ih ((p.role, st.nextTaskId) :: m)
        { st with
          tasks := st.tasks ++
            [{ id := st.nextTaskId, run_id := runId, role := p.role,
               description := p.description,
               deps := p.dependencies.filterMap (fun dep => m.lookup dep),
               status := .pending, result := none, confidence := none,
               error := none }]
          nextTaskId := st.nextTaskId + 1 } hstep with ⟨h1, h2, h3⟩
    refine ⟨h1, Nat.le_trans (Nat.le_succ _) h2, ?_⟩
    intro hn
    refine h3 ?_
    rw [List.map_append, List.map_singleton]
    rw [List.nodup_append]
    refine ⟨hn, List.nodup_singleton _, ?_⟩
    intro a ha hb
    rw [List.mem_singleton.mp hb] at ha
    rcases List.mem_map.mp ha with ⟨t, ht, hid⟩
    exact absurd hid (Nat.ne_of_lt (h t ht))

theorem materializeTasks_mono {V : Type} (runId : Nat)
    (ps : List PlannedTask) (m : List (String × Nat)) (st : SysState V) :
    ∀ t ∈ st.tasks, t ∈ (materializeTasks runId ps m st).2.tasks := by
  intro t ht
  rcases materializeTasks_shape runId ps m st with ⟨added, htasks, _⟩
  rw [htasks]
  exact List.mem_append_left _ ht

theorem materializeTasks_lookup_notin {V : Type} (runId : Nat) :
    ∀ (ps : List PlannedTask) (m : List (String × Nat)) (st : SysState V) (r : String),
    r ∉ ps.map (fun p => p.role) →
    (materializeTasks runId ps m st).1.lookup r = m.lookup r := by
  intro ps
  induction ps with
  | nil => intro m st r _; rfl
  | cons p ps ih =>
    intro m st r hr
    rw [List.map_cons, List.mem_cons] at hr
    push_neg at hr
    rw [materializeTasks_cons, ih _ _ r hr.2, List.lookup_cons]
    have hbeq : (r == p.role) = false := by
      simp only [beq_eq_false_iff_ne, ne_eq]
      exact hr.1
    rw [hbeq]

theorem materializeTasks_lookup {V : Type} (runId : Nat) :
    ∀ (ps : List PlannedTask) (m : List (String × Nat)) (st : SysState V),
    (ps.map (fun p => p.role)).Nodup →
    ∀ p ∈ ps, ∃ tid,
      (materializeTasks runId ps m st).1.lookup p.role = some tid ∧
      ∃ t ∈ (materializeTasks runId ps m st).2.tasks,
        t.id = tid ∧ t.role = p.role ∧ t.run_id = runId ∧ st.nextTaskId ≤ t.id := by
  intro ps
  induction ps with
  | nil => intro m st _ p hp; exact absurd hp (List.not_mem_nil p)
  | cons q ps ih =>
    intro m st hnd p hp
    rw [List.map_cons, List.nodup_cons] at hnd
    rw [materializeTasks_cons]
    rcases List.mem_cons.mp hp with rfl | hp
    · refine ⟨st.nextTaskId, ?_, ?_⟩
      · rw [materializeTasks_lookup_notin runId ps _ _ p.role hnd.1,
          List.lookup_cons]
        simp
      · refine ⟨{ id := st.nextTaskId, run_id := runId, role := p.role,
                  description := p.description,
                  deps := p.dependencies.filterMap (fun dep => m.lookup dep),
                  status := .pending, result := none, confidence := none,
                  error := none }, ?_, rfl, rfl, rfl, Nat.le_refl _⟩
        exact materializeTasks_mono runId ps _ _ _ (List.mem_append_right _ (List.mem_singleton.mpr rfl))
    · rcases ih ((q.role, st.nextTaskId) :: m) _ hnd.2 p hp with
        ⟨tid, hlk, t, htmem, hid, hrole, hrun, hge⟩
      exact ⟨tid, hlk, t, htmem, hid, hrole, hrun,
        Nat.le_trans (Nat.le_succ _) hge⟩

/-- Are all declared dependency role names of every planned task resolvable at
the moment the task is materialized (i.e. declared by an EARLIER planned
task)?  This is the well-formedness the claim's "otherwise" branch assumes. -/
def depsResolvable (seen : List String) : List PlannedTask → Bool
  | [] => true
  | p :: ps => (p.dependencies.all (fun d => seen.contains d)) &&
      depsResolvable (p.role :: seen) ps

theorem filterMap_length_of_all_isSome {α β : Type} (f : α → Option β) :
    ∀ l : List α, (∀ a ∈ l, (f a).isSome) → (l.filterMap f).length = l.length := by
  intro l
  induction l with
  | nil => intro _; rfl
  | cons a l ih =>
    intro h
    rcases Option.isSome_iff_exists.mp (h a (List.mem_cons_self a l)) with ⟨b, hb⟩
    rw [List.filterMap_cons, hb, List.length_cons,
      ih (fun x hx => h x (List.mem_cons_of_mem a hx)), List.length_cons]

theorem materializeTasks_resolved_lengths {V : Type} (runId : Nat) :
    ∀ (ps : List PlannedTask) (seen : List String) (m : List (String × Nat))
      (st : SysState V),
    depsResolvable seen ps = true →
    (∀ r ∈ seen, (m.lookup r).isSome) →
    ∃ added, (materializeTasks runId ps m st).2.tasks = st.tasks ++ added ∧
      List.Forall₂ (fun (p : PlannedTask) (t : TaskRec V) =>
        t.deps.length = p.dependencies.length) ps added := by
  intro ps
  induction ps with
  | nil =>
    intro seen m st _ _
    exact ⟨[], by simp [materializeTasks], List.Forall₂.nil⟩
  | cons p ps ih =>
    intro seen m st hres hseen
    rw [depsResolvable, Bool.and_eq_true] at hres
    have hlen : (p.dependencies.filterMap (fun dep => m.lookup dep)).length =
        p.dependencies.length := by
      refine filterMap_length_of_all_isSome _ _ ?_
      intro d hd
      have hdseen : d ∈ seen := by
        have hc := List.all_eq_true.mp hres.1 d hd
        exact List.elem_iff.mp hc
      exact hseen d hdseen
    have hseen2 : ∀ r ∈ p.role :: seen,
        (((p.role, st.nextTaskId) :: m).lookup r).isSome := by
      intro r hrm
      rw [List.lookup_cons]
      by_cases hc : (r == p.role) = true
      · rw [hc]; rfl
      · rw [Bool.eq_false_iff.mpr hc]
        rcases List.mem_cons.mp hrm with rfl | hr
        · simp at hc
        · exact hseen r hr
    rw [materializeTasks_cons]
    rcases ih (p.role :: seen) ((p.role, st.nextTaskId) :: m)
        { st with
          tasks := st.tasks ++
            [{ id := st.nextTaskId, run_id := runId, role := p.role,
               description := p.description,
               deps := p.dependencies.filterMap (fun dep => m.lookup dep),
               status := .pending, result := none, confidence := none,
               error := none }]
          nextTaskId := st.nextTaskId + 1 } hres.2 hseen2 with
      ⟨added, htasks, hfa⟩
    refine ⟨{ id := st.nextTaskId, run_id := runId, role := p.role,
              description := p.description,
              deps := p.dependencies.filterMap (fun dep => m.lookup dep),
              status := .pending, result := none, confidence := none,
              error := none } :: added, by rw [htasks]; simp,
      List.Forall₂.cons hlen hfa⟩

theorem materializeTasks_deps_resolve {V : Type} (runId : Nat) :
    ∀ (ps : List PlannedTask) (m : List (String × Nat)) (st : SysState V),
    (∀ rm ∈ m, ∃ t ∈ st.tasks, t.id = rm.2 ∧ t.run_id = runId) →
    (∀ t ∈ st.tasks, t.id < st.nextTaskId) →
    (∀ t ∈ st.tasks, t.run_id = runId → ∀ d ∈ t.deps,
       ∃ t2 ∈ st.tasks, t2.id = d ∧ t2.run_id = runId ∧ t2.id < t.id) →
    (∀ t ∈ (materializeTasks runId ps m st).2.tasks, t.run_id = runId →
       ∀ d ∈ t.deps,
       ∃ t2 ∈ (materializeTasks runId ps m st).2.tasks,
         t2.id = d ∧ t2.run_id = runId ∧ t2.id < t.id) := by
  intro ps
  induction ps with
  | nil => intro m st _ _ hdeps; exact hdeps
  | cons p ps ih =>
    intro m st hmap hids hdeps
    rw [materializeTasks_cons]
    set T : TaskRec V :=
      { id := st.nextTaskId, run_id := runId, role := p.role,
        description := p.description,
        deps := p.dependencies.filterMap (fun dep => m.lookup dep),
        status := .pending, result := none, confidence := none,
        error := none } with hT
    refine ih ((p.role, st.nextTaskId) :: m)
      { st with tasks := st.tasks ++ [T], nextTaskId := st.nextTaskId + 1 }
      ?_ ?_ ?_
    · intro rm hrm
      rcases List.mem_cons.mp hrm with rfl | hrm
      · exact ⟨T, List.mem_append_right _ (List.mem_singleton.mpr rfl), rfl, rfl⟩
      · rcases hmap rm hrm with ⟨t, ht, h1, h2⟩
        exact ⟨t, List.mem_append_left _ ht, h1, h2⟩
    · intro t ht
      rcases List.mem_append.mp ht with ht | ht
      · exact Nat.lt_succ_of_lt (hids t ht)
      · rw [List.mem_singleton.mp ht]
        exact Nat.lt_succ_self _
    · intro t ht hrun d hd
      rcases List.mem_append.mp ht with ht | ht
      · rcases hdeps t ht hrun d hd with ⟨t2, ht2, h1, h2, h3⟩
        exact ⟨t2, List.mem_append_left _ ht2, h1, h2, h3⟩
      · rw [List.mem_singleton.mp ht] at hd ⊢
        rcases List.mem_filterMap.mp hd with ⟨dep, _, hlk⟩
        rcases List.lookup_eq_some_iff.mp hlk with ⟨l₁, l₂, hm, _⟩
        have hmem : (dep, d) ∈ m := by
          rw [hm]; exact List.mem_append_right _ (List.mem_cons_self _ _)
        rcases hmap (dep, d) hmem with ⟨t2, ht2, h1, h2⟩
        exact ⟨t2, List.mem_append_left _ ht2, h1, h2, hids t2 ht2⟩

def ghostPlan : ExecutionPlan :=
  { phases := [{ name := "P1", description := "only phase", parallel := false,
                 tasks := [{ role := "solo", description := "the only task",
                             inputs := [], dependencies := ["ghost"],
                             tools := [], context_tags := [] }] }],
    estimated_agents := 1, strategy := "one task" }

def okResult : AgentResult String :=
  { success := true, data := none, entries := [], artifacts := [],
    confidence := 1, error := none }

/-- C1 counterexample: the plan declares the dependency role `"ghost"`, which
no task of the plan (and nothing else) ever receives an id — an unresolved
reference.  The claim says materialization must fail and abort the whole run;
instead the reference is silently dropped (`.filter(id => !!id)`), the task is
persisted with an empty dependency list, the run executes it and finishes
with status completed. -/
theorem ghost_dependency_not_fatal :
    ((flatTasks ghostPlan).map (fun p => (p.role, p.dependencies))) =
      [("solo", ["ghost"])] ∧
    (∀ q ∈ flatTasks ghostPlan, ¬ q.role = "ghost") ∧
    (runMinions strRuntime "task" (Except.ok ghostPlan)
      (fun _ => TaskOutcome.result okResult) 0 (initState String)).1.status =
      RunStatus.completed ∧
    ((runMinions strRuntime "task" (Except.ok ghostPlan)
      (fun _ => TaskOutcome.result okResult) 0 (initState String)).2.tasks.map
        (fun t => (t.role, t.deps, t.status))) =
      [("solo", ([] : List Nat), TaskStatus.completed)] := by decide

/-- C1 amended: materialization is total — an unresolved dependency role is
silently dropped rather than aborting the run.  For every persisted task the
stored dependency-id list has at most one id per declared dependency
occurrence, every stored id resolves to a task of the same run created
earlier (so the stored graph is acyclic by construction), and when every
declared dependency names an earlier task of the plan nothing is dropped:
the stored list has exactly one id per declared occurrence. -/
theorem materialize_spec {V : Type} (runId : Nat) (plan : ExecutionPlan)
    (st0 : SysState V)
    (hids : ∀ t ∈ st0.tasks, t.id < st0.nextTaskId)
    (hfresh : ∀ t ∈ st0.tasks, ¬ t.run_id = runId) :
    (∃ added, (materializeTasks runId (flatTasks plan) [] st0).2.tasks =
        st0.tasks ++ added ∧
      List.Forall₂ (fun (p : PlannedTask) (t : TaskRec V) =>
        t.role = p.role ∧ t.run_id = runId ∧ t.status = TaskStatus.pending ∧
        t.deps.length ≤ p.dependencies.length) (flatTasks plan) added) ∧
    (∀ t ∈ (materializeTasks runId (flatTasks plan) [] st0).2.tasks,
       t.run_id = runId → ∀ d ∈ t.deps,
       ∃ t2 ∈ (materializeTasks runId (flatTasks plan) [] st0).2.tasks,
         t2.id = d ∧ t2.run_id = runId ∧ t2.id < t.id) ∧
    (depsResolvable [] (flatTasks plan) = true →
      ∃ added, (materializeTasks runId (flatTasks plan) [] st0).2.tasks =
          st0.tasks ++ added ∧
        List.Forall₂ (fun (p : PlannedTask) (t : TaskRec V) =>
          t.deps.length = p.dependencies.length) (flatTasks plan) added) := by
  refine ⟨materializeTasks_shape runId _ [] st0, ?_, ?_⟩
  · refine materializeTasks_deps_resolve runId _ [] st0 ?_ hids ?_
    · intro rm hrm; exact absurd hrm (List.not_mem_nil rm)
    · intro t ht hrun; exact absurd hrun (hfresh t ht)
  · intro hres
    exact materializeTasks_resolved_lengths runId _ [] [] st0 hres
      (fun r hr => absurd hr (List.not_mem_nil r))

/-- A well-formed two-task plan: `b` depends on the earlier `a`. -/
def ghostPlanChain : ExecutionPlan :=
  { phases := [{ name := "P1", description := "chain", parallel := false,
                 tasks := [{ role := "a", description := "first", inputs := [],
                             dependencies := [], tools := [], context_tags := [] },
                           { role := "b", description := "second", inputs := [],
                             dependencies := ["a"], tools := [], context_tags := [] }] }],
    estimated_agents := 2, strategy := "chain" }

/-- Witness for the amended C1 theorem at a well-formed two-task plan. -/
theorem materialize_spec_witness :
    (∀ t ∈ (initState String).tasks, t.id < (initState String).nextTaskId) ∧
    depsResolvable [] (flatTasks ghostPlanChain) = true ∧
    (∃ added, (materializeTasks 0 (flatTasks ghostPlanChain) [] (initState String)).2.tasks =
        (initState String).tasks ++ added ∧
      List.Forall₂ (fun (p : PlannedTask) (t : TaskRec String) =>
        t.deps.length = p.dependencies.length) (flatTasks ghostPlanChain) added) :=
  ⟨by decide, by decide,
    (materialize_spec 0 ghostPlanChain (initState String) (by decide) (by decide)).2.2
      (by decide)⟩

/-! ## Executor lemmas and C9 -/

theorem writeEntry_tasks {V : Type} (req : WriteReq V) (s : SysState V) :
    (writeEntry req s).tasks = s.tasks := by
  unfold writeEntry; split <;> rfl

theorem writeEntry_artifacts {V : Type} (req : WriteReq V) (s : SysState V) :
    (writeEntry req s).artifacts = s.artifacts := by
  unfold writeEntry; split <;> rfl

theorem foldl_proj_invariant {V γ α : Type} (g : SysState V → γ)
    (f : SysState V → α → SysState V) (hf : ∀ s a, g (f s a) = g s) :
    ∀ (l : List α) (st : SysState V), g (l.foldl f st) = g st := by
  intro l
  induction l with
  | nil => intro st; rfl
  | cons a l ih => intro st; rw [List.foldl_cons, ih, hf]

/-- The net effect of `executeTask` on the targeted task row: the `running`
update followed by the terminal update. -/
def taskAfterOutcome {V : Type} (o : TaskOutcome V) (t : TaskRec V) : TaskRec V :=
  match o with
  | .thrown msg => { t with status := .failed, error := some msg }
  | .result r =>
    { t with
        status := terminalStatus r
        result := r.data
        confidence := some r.confidence
        error := jsOrNull r.error }

theorem executeTask_tasks_eq {V : Type} (runId : Nat) (planned : PlannedTask)
    (roleMap : List (String × Nat)) (o : TaskOutcome V) (st : SysState V) (tid : Nat)
    (hl : roleMap.lookup planned.role = some tid) :
    (executeTask runId planned roleMap o st).tasks =
      st.tasks.map (fun t => if t.id = tid then taskAfterOutcome o t else t) := by
  cases o with
  | thrown msg =>
    simp only [executeTask, hl, mapTask, List.map_map]
    refine congrArg (fun f => List.map f st.tasks) (funext fun t => ?_)
    by_cases hid : t.id = tid
    · simp [Function.comp, hid, taskAfterOutcome]
    · simp [Function.comp, hid, taskAfterOutcome]
  | result r =>
    have hent : ∀ (s : SysState V),
        (r.entries.foldl (fun s2 w => writeEntry (entryReq runId planned.role w) s2) s).tasks
          = s.tasks :=
      fun s => foldl_proj_invariant (fun s2 => s2.tasks) _
        (fun s2 w => writeEntry_tasks _ _) r.entries s
    have hart : ∀ (s : SysState V),
        (r.artifacts.foldl (fun s2 a => saveArtifact runId (some tid) a.name
          a.content_type (jsOrNull (some a.content)) none s2) s).tasks = s.tasks :=
      fun s => foldl_proj_invariant (fun s2 => s2.tasks)
        (fun s2 a => saveArtifact runId (some tid) a.name a.content_type
          (jsOrNull (some a.content)) none s2)
        (fun s2 a => rfl) r.artifacts s
    simp only [executeTask, hl, mapTask, hent, hart, List.map_map]
    refine congrArg (fun f => List.map f st.tasks) (funext fun t => ?_)
    by_cases hid : t.id = tid
    · simp [Function.comp, hid, taskAfterOutcome]
    · simp [Function.comp, hid, taskAfterOutcome]

theorem writeEntry_presence {V : Type} (req : WriteReq V) (s : SysState V) :
    ∃ e ∈ (writeEntry req s).entries,
      e.run_id = req.run_id ∧ e.key = req.key ∧ e.written_by = req.written_by := by
  unfold writeEntry
  by_cases h : s.entries.any (keyMatches req.run_id req.key) = true
  · simp only [h, if_true]
    rcases List.any_eq_true.mp h with ⟨e0, he0, hm⟩
    rcases (keyMatches_iff _ _ e0).mp hm with ⟨h1, h2⟩
    refine ⟨_, List.mem_map_of_mem _ he0, ?_⟩
    rw [if_pos hm]
    exact ⟨h1, h2, rfl⟩
  · simp only [h, if_false]
    exact ⟨_, List.mem_append_right _ (List.mem_singleton.mpr rfl), rfl, rfl, rfl⟩

theorem writeEntry_preserves_presence {V : Type} (req : WriteReq V) (s : SysState V)
    (rid : Nat) (k : String) (author : String)
    (hauth : req.written_by = author)
    (h : ∃ e ∈ s.entries, e.run_id = rid ∧ e.key = k ∧ e.written_by = author) :
    ∃ e ∈ (writeEntry req s).entries,
      e.run_id = rid ∧ e.key = k ∧ e.written_by = author := by
  rcases h with ⟨e0, he0, h1, h2, h3⟩
  unfold writeEntry
  by_cases hc : s.entries.any (keyMatches req.run_id req.key) = true
  · simp only [hc, if_true]
    by_cases hm : keyMatches req.run_id req.key e0 = true
    · refine ⟨_, List.mem_map_of_mem _ he0, ?_⟩
      rw [if_pos hm]
      exact ⟨h1, h2, hauth⟩
    · refine ⟨_, List.mem_map_of_mem _ he0, ?_⟩
      rw [if_neg hm]
      exact ⟨h1, h2, h3⟩
  · simp only [hc, if_false]
    exact ⟨e0, List.mem_append_left _ he0, h1, h2, h3⟩

theorem entriesFold_preserves {V : Type} (runId : Nat) (role : String)
    (rid : Nat) (k : String) :
    ∀ (ws : List (BlackboardWrite V)) (st : SysState V),
    (∃ e ∈ st.entries, e.run_id = rid ∧ e.key = k ∧ e.written_by = role) →
    ∃ e ∈ (ws.foldl (fun s w2 => writeEntry (entryReq runId role w2) s) st).entries,
      e.run_id = rid ∧ e.key = k ∧ e.written_by = role := by
  intro ws
  induction ws with
  | nil => intro st h; exact h
  | cons w0 ws ih =>
    intro st h
    rw [List.foldl_cons]
    exact ih _ (writeEntry_preserves_presence _ st rid k role rfl h)

theorem entriesFold_presence {V : Type} (runId : Nat) (role : String) :
    ∀ (ws : List (BlackboardWrite V)) (st : SysState V) (w : BlackboardWrite V),
    w ∈ ws →
    ∃ e ∈ (ws.foldl (fun s w2 => writeEntry (entryReq runId role w2) s) st).entries,
      e.run_id = runId ∧ e.key = role ++ ":" ++ w.key ∧ e.written_by = role := by
  intro ws
  induction ws with
  | nil => intro st w hw; exact absurd hw (List.not_mem_nil w)
  | cons w0 ws ih =>
    intro st w hw
    rw [List.foldl_cons]
    rcases List.mem_cons.mp hw with rfl | hw
    · exact entriesFold_preserves runId role runId (role ++ ":" ++ w.key) ws _
        (writeEntry_presence (entryReq runId role w) st)
    · exact ih _ w hw

theorem artifactsFold_artifacts {V : Type} (runId tid : Nat) :
    ∀ (as : List ArtifactWrite) (st : SysState V),
    (as.foldl (fun s a => saveArtifact runId (some tid) a.name a.content_type
        (jsOrNull (some a.content)) none s) st).artifacts =
      st.artifacts ++ as.map (artifactReq runId tid) := by
  intro as
  induction as with
  | nil => intro st; simp
  | cons a as ih =>
    intro st
    rw [List.foldl_cons, ih]
    show (st.artifacts ++ [artifactReq runId tid a]) ++ _ = _
    rw [List.append_assoc, List.map_cons]
    rfl

/-- C9: a failing external result is not atomic with respect to the shared
store: every entry it lists is persisted to the blackboard (keyed `role:key`,
authored by the role), every artifact it lists is saved and attached to the
task, and only then is the task marked failed. -/
theorem executeTask_persists_despite_failure {V : Type} (runId : Nat)
    (planned : PlannedTask) (roleMap : List (String × Nat)) (r : AgentResult V)
    (st : SysState V) (tid : Nat)
    (hl : roleMap.lookup planned.role = some tid)
    (hfail : r.success = false) :
    (∀ w ∈ r.entries,
      ∃ e ∈ (executeTask runId planned roleMap (.result r) st).entries,
        e.run_id = runId ∧ e.key = planned.role ++ ":" ++ w.key ∧
        e.written_by = planned.role) ∧
    (∀ a ∈ r.artifacts,
      ∃ rec2 ∈ (executeTask runId planned roleMap (.result r) st).artifacts,
        rec2.run_id = runId ∧ rec2.task_id = some tid ∧
        rec2.name = a.name ∧ rec2.content_type = a.content_type) ∧
    (∀ t ∈ st.tasks, t.id = tid →
      ∃ t2 ∈ (executeTask runId planned roleMap (.result r) st).tasks,
        t2.id = tid ∧ t2.role = t.role ∧ t2.status = TaskStatus.failed) := by
  have hart_pres : ∀ (s : SysState V),
      (r.artifacts.foldl (fun s2 a => saveArtifact runId (some tid) a.name
        a.content_type (jsOrNull (some a.content)) none s2) s).entries = s.entries :=
    fun s => foldl_proj_invariant (fun s2 => s2.entries)
      (fun s2 a => saveArtifact runId (some tid) a.name a.content_type
        (jsOrNull (some a.content)) none s2)
      (fun s2 a => rfl) r.artifacts s
  have hent_art : ∀ (s : SysState V),
      (r.entries.foldl (fun s2 w => writeEntry (entryReq runId planned.role w) s2) s).artifacts
        = s.artifacts :=
    fun s => foldl_proj_invariant (fun s2 => s2.artifacts) _
      (fun s2 w => writeEntry_artifacts _ _) r.entries s
  refine ⟨?_, ?_, ?_⟩
  · intro w hw
    have hmain : (executeTask runId planned roleMap (.result r) st).entries =
        (r.entries.foldl (fun s2 w2 => writeEntry (entryReq runId planned.role w2) s2)
          (mapTask tid (fun t => { t with status := .running }) st)).entries := by
      simp only [executeTask, hl, mapTask, hart_pres]
    rw [hmain]
    exact entriesFold_presence runId planned.role r.entries _ w hw
  · intro a ha
    have hmain : (executeTask runId planned roleMap (.result r) st).artifacts =
        (mapTask tid (fun t => { t with status := .running }) st).artifacts ++
          r.artifacts.map (artifactReq runId tid) := by
      simp only [executeTask, hl, mapTask, hent_art, artifactsFold_artifacts]
    rw [hmain]
    refine ⟨artifactReq runId tid a, List.mem_append_right _ (List.mem_map_of_mem _ ha),
      rfl, rfl, rfl, rfl⟩
  · intro t ht hid
    rw [executeTask_tasks_eq runId planned roleMap (.result r) st tid hl]
    refine ⟨taskAfterOutcome (.result r) t, ?_, ?_, rfl, ?_⟩
    · refine List.mem_map.mpr ⟨t, ht, ?_⟩
      rw [if_pos hid]
    · show t.id = tid
      exact hid
    · show terminalStatus r = TaskStatus.failed
      rw [terminalStatus, hfail]
      rfl

def c9Result : AgentResult String :=
  { success := false, data := some "partial findings",
    entries := [{ key := "finding", value := "v", tags := ["t"],
                  entity_ids := none, event_date := none }],
    artifacts := [{ name := "out.md", content_type := "text/markdown",
                    content := "body" }],
    confidence := 1/2, error := some "went wrong" }

def c9Planned : PlannedTask :=
  { role := "worker", description := "d", inputs := [], dependencies := [],
    tools := [], context_tags := [] }

def c9Store : SysState String :=
  { tasks := [{ id := 5, run_id := 0, role := "worker", description := "d",
                deps := [], status := .pending, result := none,
                confidence := none, error := none }],
    entries := [], artifacts := [], nextTaskId := 6, clock := 0 }

/-- Witness for C9: a concrete failing result with one entry and one artifact
still gets both persisted. -/
theorem executeTask_persists_witness :
    ([("worker", 5)] : List (String × Nat)).lookup "worker" = some 5 ∧
    c9Result.success = false ∧
    (∀ w ∈ c9Result.entries,
      ∃ e ∈ (executeTask 0 c9Planned [("worker", 5)] (.result c9Result) c9Store).entries,
        e.run_id = 0 ∧ e.key = c9Planned.role ++ ":" ++ w.key ∧
        e.written_by = c9Planned.role) :=
  ⟨by decide, by decide,
    (executeTask_persists_despite_failure 0 c9Planned [("worker", 5)] c9Result c9Store 5
      (by decide) (by decide)).1⟩

/-! ## Phase-execution lemmas (towards C4) -/

/-- Executing the phases in array order — with the parallel fan-out of a phase
linearized — is the in-order fold over the flattened planned-task list. -/
theorem execPhases_eq_flat {V : Type} (runId : Nat) (roleMap : List (String × Nat))
    (outcomes : String → TaskOutcome V) :
    ∀ (phs : List Phase) (st : SysState V),
    phs.foldl (fun s ph => ph.tasks.foldl
      (fun s2 p => executeTask runId p roleMap (outcomes p.role) s2) s) st =
    (phs.flatMap (fun ph => ph.tasks)).foldl
      (fun s2 p => executeTask runId p roleMap (outcomes p.role) s2) st := by
  intro phs
  induction phs with
  | nil => intro st; rfl
  | cons ph phs ih =>
    intro st
    rw [List.foldl_cons, List.flatMap_cons, List.foldl_append, ih]

/-- The terminal status `executeTask` stores for a task, as a function of its
external-call outcome: a throw marks it failed, a returned result is judged by
its `success` flag. -/
def outcomeStatus {V : Type} (o : TaskOutcome V) : TaskStatus :=
  match o with
  | .thrown _ => TaskStatus.failed
  | .result r => terminalStatus r

theorem taskAfterOutcome_fields {V : Type} (o : TaskOutcome V) (t : TaskRec V) :
    (taskAfterOutcome o t).id = t.id ∧ (taskAfterOutcome o t).role = t.role ∧
    (taskAfterOutcome o t).run_id = t.run_id ∧
    (taskAfterOutcome o t).status = outcomeStatus o := by
  cases o <;> exact ⟨rfl, rfl, rfl, rfl⟩

/-- Folding `executeTask` over planned tasks with pairwise-distinct targets:
the task table is transformed pointwise; every targeted row gets the terminal
status of its own outcome, and untargeted rows are untouched. -/
theorem execFold_spec {V : Type} (runId : Nat) (roleMap : List (String × Nat))
    (outcomes : String → TaskOutcome V) :
    ∀ (ps : List PlannedTask) (st : SysState V),
    (∀ p ∈ ps, (roleMap.lookup p.role).isSome) →
    List.Pairwise (fun p q : PlannedTask =>
      roleMap.lookup p.role ≠ roleMap.lookup q.role) ps →
    ∃ F : TaskRec V → TaskRec V,
      (ps.foldl (fun s2 p => executeTask runId p roleMap (outcomes p.role) s2) st).tasks
        = st.tasks.map F ∧
      (∀ t, (F t).id = t.id ∧ (F t).role = t.role ∧ (F t).run_id = t.run_id) ∧
      (∀ t, ∀ p ∈ ps, roleMap.lookup p.role = some t.id →
        (F t).status = outcomeStatus (outcomes p.role)) ∧
      (∀ t, (∀ p ∈ ps, ¬ roleMap.lookup p.role = some t.id) → F t = t) := by
  intro ps
  induction ps with
  | nil =>
    intro st _ _
    refine ⟨fun t => t, (List.map_id _).symm, fun t => ⟨rfl, rfl, rfl⟩, ?_, fun t _ => rfl⟩
    intro t p hp
    exact absurd hp (List.not_mem_nil p)
  | cons p ps ih =>
    intro st hsome hpw
    rcases Option.isSome_iff_exists.mp (hsome p (List.mem_cons_self p ps)) with ⟨tid, htid⟩
    rw [List.pairwise_cons] at hpw
    rw [List.foldl_cons]
    rcases ih (executeTask runId p roleMap (outcomes p.role) st)
        (fun q hq => hsome q (List.mem_cons_of_mem p hq)) hpw.2 with
      ⟨F1, hF1tasks, hF1fields, hF1target, hF1un⟩
    set G : TaskRec V → TaskRec V :=
      fun t => if t.id = tid then taskAfterOutcome (outcomes p.role) t else t with hG
    have hGtasks : (executeTask runId p roleMap (outcomes p.role) st).tasks =
        st.tasks.map G := executeTask_tasks_eq runId p roleMap _ st tid htid
    have hGfields : ∀ t, (G t).id = t.id ∧ (G t).role = t.role ∧ (G t).run_id = t.run_id := by
      intro t
      by_cases hid : t.id = tid
      · simp only [hG, hid, if_true]
        rcases taskAfterOutcome_fields (outcomes p.role) t with ⟨h1, h2, h3, _⟩
        exact ⟨by rw [h1, hid], h2, h3⟩
      · simp [hG, hid]
    refine ⟨fun t => F1 (G t), ?_, ?_, ?_, ?_⟩
    · rw [hF1tasks, hGtasks, List.map_map]
      rfl
    · intro t
      rcases hGfields t with ⟨h1, h2, h3⟩
      rcases hF1fields (G t) with ⟨g1, g2, g3⟩
      exact ⟨g1.trans h1, g2.trans h2, g3.trans h3⟩
    · intro t q hq hlq
      rcases List.mem_cons.mp hq with rfl | hq
      · -- q is the head: its own write lands, and the rest leave the row alone
        have htt : tid = t.id := by
          rw [htid] at hlq
          exact Option.some.inj hlq
        have hGt : G t = taskAfterOutcome (outcomes q.role) t := by
          simp [hG, htt.symm]
        have huntouched : F1 (G t) = G t := by
          refine hF1un (G t) ?_
          intro q2 hq2 hc
          have hne := hpw.1 q2 hq2
          rw [(hGfields t).1, ← htt] at hc
          exact hne (htid.trans hc.symm)
        show (F1 (G t)).status = outcomeStatus (outcomes q.role)
        rw [huntouched, hGt]
        exact (taskAfterOutcome_fields (outcomes q.role) t).2.2.2
      · -- q is later: the head write leaves the row alone, recurse
        have hne : ¬ t.id = tid := by
          intro hc
          have := hpw.1 q hq
          rw [hc] at hlq
          exact this (htid.trans hlq.symm)
        have hGt : G t = t := by simp [hG, hne]
        show (F1 (G t)).status = outcomeStatus (outcomes q.role)
        rw [hGt]
        refine hF1target t q hq ?_
        exact hlq
    · intro t hnone
      have hGt : G t = t := by
        have hne : ¬ t.id = tid := by
          intro hc
          exact hnone p (List.mem_cons_self p ps) (by rw [htid, hc])
        simp [hG, hne]
      show F1 (G t) = t
      rw [hGt]
      exact hF1un t (fun q hq => hnone q (List.mem_cons_of_mem p hq))

theorem forall₂_mem_right {α β : Type} {R : α → β → Prop} :
    ∀ {l1 : List α} {l2 : List β}, List.Forall₂ R l1 l2 →
    ∀ b ∈ l2, ∃ a ∈ l1, R a b := by
  intro l1 l2 h
  induction h with
  | nil => intro b hb; exact absurd hb (List.not_mem_nil b)
  | @cons a b l1' l2' hR hrest ih =>
    intro b2 hb2
    rcases List.mem_cons.mp hb2 with rfl | hb2
    · exact ⟨a, List.mem_cons_self _ _, hR⟩
    · rcases ih b2 hb2 with ⟨a2, ha2, hab⟩
      exact ⟨a2, List.mem_cons_of_mem _ ha2, hab⟩

theorem forall₂_roles_map {V : Type} {runId : Nat} :
    ∀ {ps : List PlannedTask} {added : List (TaskRec V)},
    List.Forall₂ (fun (p : PlannedTask) (t : TaskRec V) =>
      t.role = p.role ∧ t.run_id = runId ∧ t.status = TaskStatus.pending ∧
      t.deps.length ≤ p.dependencies.length) ps added →
    added.map (fun t => t.role) = ps.map (fun p => p.role) := by
  intro ps added h
  induction h with
  | nil => rfl
  | cons hR _ ih => simp only [List.map_cons, ih, hR.1]

/-! ## String-concatenation lemmas for the synthesized report -/

def strConcatMap {α : Type} (g : α → String) : List α → String
  | [] => ""
  | x :: xs => g x ++ strConcatMap g xs

theorem foldl_strConcatMap {α : Type} (g : α → String) :
    ∀ (l : List α) (init : String),
    l.foldl (fun acc x => acc ++ g x) init = init ++ strConcatMap g l := by
  intro l
  induction l with
  | nil => intro init; exact (String.append_empty init).symm
  | cons x xs ih =>
    intro init
    rw [List.foldl_cons, ih, strConcatMap, String.append_assoc]

theorem strConcatMap_append {α : Type} (g : α → String) :
    ∀ (l1 l2 : List α),
    strConcatMap g (l1 ++ l2) = strConcatMap g l1 ++ strConcatMap g l2 := by
  intro l1 l2
  induction l1 with
  | nil => simp [strConcatMap]
  | cons x xs ih =>
    rw [List.cons_append]
    show g x ++ strConcatMap g (xs ++ l2) = (g x ++ strConcatMap g xs) ++ strConcatMap g l2
    rw [ih, String.append_assoc]

theorem append_extract_middle (B p1 mid p2 : String) :
    ∃ pre post, B ++ (p1 ++ (mid ++ p2)) = pre ++ mid ++ post :=
  ⟨B ++ p1, p2, by simp [String.append_assoc]⟩

/-- Every failed task contributes its own line to the synthesized report. -/
theorem synthesize_mentions_failed {V : Type} (rt : JsRuntime V)
    (tasks : List (TaskRec V)) (es : List (EntryRec V)) (t : TaskRec V)
    (ht : t ∈ tasks) (hf : t.status = TaskStatus.failed) :
    ∃ pre post, synthesize rt tasks es =
      pre ++ ("- **" ++ t.role ++ "**: " ++ errStr t.error ++ "\n") ++ post := by
  have htf : t ∈ tasks.filter (fun t2 => t2.status = TaskStatus.failed) :=
    List.mem_filter.mpr ⟨ht, by simp [hf]⟩
  have hlen : 0 < (tasks.filter (fun t2 => t2.status = TaskStatus.failed)).length :=
    List.length_pos.mpr (List.ne_nil_of_mem htf)
  rcases List.append_of_mem htf with ⟨l1, l2, hsplit⟩
  unfold synthesize
  rw [if_pos hlen, foldl_strConcatMap, hsplit, strConcatMap_append, strConcatMap]
  exact append_extract_middle _ _ _ _

/-- C4: task-level failures are isolated.  For every plan (with the data-model
invariant that role names are unique in the run) and every assignment of
external outcomes — explicit failure results, synthesized timeout failures, or
throws — the run finishes with status `completed`, no run error, and a
synthesized report; every planned task reaches exactly the terminal status its
own outcome dictates (so siblings and later phases still execute), and every
failed task is listed with its role and error in the report.  Only the fatal
planning/persistence channel (the `Except.error` argument) marks the run
failed, with `run.error` populated and no synthesized result. -/
theorem run_isolates_task_failures {V : Type} (rt : JsRuntime V) (taskText : String)
    (plan : ExecutionPlan) (outcomes : String → TaskOutcome V) (runId : Nat)
    (st0 : SysState V)
    (hroles : ((flatTasks plan).map (fun p => p.role)).Nodup)
    (hfresh : ∀ t ∈ st0.tasks, ¬ t.run_id = runId)
    (hb : ∀ t ∈ st0.tasks, t.id < st0.nextTaskId)
    (hnodup : (st0.tasks.map (fun t => t.id)).Nodup) :
    (runMinions rt taskText (Except.ok plan) outcomes runId st0).1.status =
      RunStatus.completed ∧
    (runMinions rt taskText (Except.ok plan) outcomes runId st0).1.error = none ∧
    (∃ res, (runMinions rt taskText (Except.ok plan) outcomes runId st0).1.result =
        some res ∧
      res.summary = synthesize rt
        (tasksByRun (runMinions rt taskText (Except.ok plan) outcomes runId st0).2 runId)
        (queryEntries (runMinions rt taskText (Except.ok plan) outcomes runId st0).2 runId {})) ∧
    (∀ p ∈ flatTasks plan,
      ∃ t ∈ tasksByRun (runMinions rt taskText (Except.ok plan) outcomes runId st0).2 runId,
        t.role = p.role ∧ t.status = outcomeStatus (outcomes p.role)) ∧
    (∀ t ∈ tasksByRun (runMinions rt taskText (Except.ok plan) outcomes runId st0).2 runId,
        t.status = outcomeStatus (outcomes t.role)) ∧
    (∀ t ∈ tasksByRun (runMinions rt taskText (Except.ok plan) outcomes runId st0).2 runId,
        t.status = TaskStatus.failed →
        ∃ pre post, synthesize rt
          (tasksByRun (runMinions rt taskText (Except.ok plan) outcomes runId st0).2 runId)
          (queryEntries (runMinions rt taskText (Except.ok plan) outcomes runId st0).2 runId {}) =
            pre ++ ("- **" ++ t.role ++ "**: " ++ errStr t.error ++ "\n") ++ post) ∧
    (∀ msg,
      (runMinions rt taskText (Except.error msg) outcomes runId st0).1.status =
        RunStatus.failed ∧
      (runMinions rt taskText (Except.error msg) outcomes runId st0).1.error = some msg ∧
      (runMinions rt taskText (Except.error msg) outcomes runId st0).1.result = none) := by
  have h2eq : (runMinions rt taskText (Except.ok plan) outcomes runId st0).2 =
      (flatTasks plan).foldl
        (fun s2 p => executeTask runId p
          (materializeTasks runId (flatTasks plan) [] st0).1 (outcomes p.role) s2)
        (materializeTasks runId (flatTasks plan) [] st0).2 :=
    execPhases_eq_flat runId (materializeTasks runId (flatTasks plan) [] st0).1
      outcomes plan.phases (materializeTasks runId (flatTasks plan) [] st0).2
  have hids1 := materializeTasks_ids runId (flatTasks plan) [] st0 hb
  have hnodup1 : ((materializeTasks runId (flatTasks plan) [] st0).2.tasks.map
      (fun t => t.id)).Nodup := hids1.2.2 hnodup
  have hlk := materializeTasks_lookup runId (flatTasks plan) [] st0 hroles
  have hsome : ∀ p ∈ flatTasks plan,
      (((materializeTasks runId (flatTasks plan) [] st0).1).lookup p.role).isSome := by
    intro p hp
    rcases hlk p hp with ⟨tid, h1, _⟩
    rw [h1]; rfl
  have hpairroles : (flatTasks plan).Pairwise (fun p q => p.role ≠ q.role) :=
    List.pairwise_map.mp hroles
  have hpairlookup : (flatTasks plan).Pairwise (fun p q =>
      ((materializeTasks runId (flatTasks plan) [] st0).1).lookup p.role ≠
      ((materializeTasks runId (flatTasks plan) [] st0).1).lookup q.role) := by
    refine hpairroles.imp_of_mem ?_
    intro p q hp hq hne hc
    rcases hlk p hp with ⟨tidp, hp1, tp, htp, hpid, hprole, hprun, _⟩
    rcases hlk q hq with ⟨tidq, hq1, tq, htq, hqid, hqrole, hqrun, _⟩
    rw [hp1, hq1] at hc
    have hteq : tp = tq := by
      refine List.inj_on_of_nodup_map hnodup1 htp htq ?_
      show tp.id = tq.id
      rw [hpid, hqid]
      exact Option.some.inj hc
    exact hne (hprole.symm.trans (by rw [hteq, hqrole]))
  rcases execFold_spec runId (materializeTasks runId (flatTasks plan) [] st0).1
      outcomes (flatTasks plan) (materializeTasks runId (flatTasks plan) [] st0).2
      hsome hpairlookup with ⟨F, hFtasks, hFfields, hFtarget, hFun⟩
  rcases materializeTasks_shape runId (flatTasks plan) [] st0 with ⟨added, hshape, hfa⟩
  have haddedroles : added.map (fun t => t.role) = (flatTasks plan).map (fun p => p.role) :=
    forall₂_roles_map hfa
  have haddednodup : (added.map (fun t => t.role)).Nodup := by
    rw [haddedroles]; exact hroles
  have hfinal_tasks : (runMinions rt taskText (Except.ok plan) outcomes runId st0).2.tasks =
      (materializeTasks runId (flatTasks plan) [] st0).2.tasks.map F := by
    rw [h2eq]
    exact hFtasks
  have hmem_run : ∀ a ∈ (materializeTasks runId (flatTasks plan) [] st0).2.tasks,
      a.run_id = runId →
      F a ∈ tasksByRun (runMinions rt taskText (Except.ok plan) outcomes runId st0).2 runId := by
    intro a ha harun
    refine List.mem_filter.mpr ⟨?_, ?_⟩
    · rw [hfinal_tasks]
      exact List.mem_map_of_mem F ha
    · simp [(hFfields a).2.2, harun]
  have hconc4 : ∀ p ∈ flatTasks plan,
      ∃ t ∈ tasksByRun (runMinions rt taskText (Except.ok plan) outcomes runId st0).2 runId,
        t.role = p.role ∧ t.status = outcomeStatus (outcomes p.role) := by
    intro p hp
    rcases hlk p hp with ⟨tid, h1, tp, htp, hpid, hprole, hprun, _⟩
    refine ⟨F tp, hmem_run tp htp hprun, ?_, ?_⟩
    · rw [(hFfields tp).2.1, hprole]
    · refine hFtarget tp p hp ?_
      rw [h1, hpid]
  have hconc5 : ∀ t ∈ tasksByRun
      (runMinions rt taskText (Except.ok plan) outcomes runId st0).2 runId,
      t.status = outcomeStatus (outcomes t.role) := by
    intro t htmem
    have h1 := List.mem_filter.mp htmem
    rw [hfinal_tasks] at h1
    rcases List.mem_map.mp h1.1 with ⟨a, ha, rfl⟩
    have harun : a.run_id = runId := by
      have h3 := h1.2
      rw [← (hFfields a).2.2]
      simpa using h3
    have hadded : a ∈ added := by
      rw [hshape] at ha
      rcases List.mem_append.mp ha with h | h
      · exact absurd harun (hfresh a h)
      · exact h
    rcases forall₂_mem_right hfa a hadded with ⟨p, hpflat, hrole, _, _, _⟩
    rcases hlk p hpflat with ⟨tid, h1lk, tp, htp, hpid, hprole, hprun, _⟩
    have htpadded : tp ∈ added := by
      rw [hshape] at htp
      rcases List.mem_append.mp htp with h | h
      · exact absurd hprun (hfresh tp h)
      · exact h
    have haeq : a = tp := by
      refine List.inj_on_of_nodup_map haddednodup hadded htpadded ?_
      show a.role = tp.role
      rw [hrole, hprole]
    have haid : a.id = tid := by rw [haeq, hpid]
    have hstat := hFtarget a p hpflat (by rw [h1lk, haid])
    rw [(hFfields a).2.1, hrole]
    exact hstat
  refine ⟨rfl, rfl, ⟨_, rfl, rfl⟩, hconc4, hconc5, ?_, fun msg => ⟨rfl, rfl, rfl⟩⟩
  intro t htmem hstatus
  exact synthesize_mentions_failed rt _ _ t htmem hstatus

def c4Plan : ExecutionPlan :=
  { phases := [{ name := "P1", description := "first", parallel := false,
                 tasks := [{ role := "alpha", description := "a", inputs := [],
                             dependencies := [], tools := [], context_tags := [] }] },
               { name := "P2", description := "second", parallel := true,
                 tasks := [{ role := "beta", description := "b", inputs := [],
                             dependencies := ["alpha"], tools := [], context_tags := [] },
                           { role := "gamma", description := "c", inputs := [],
                             dependencies := ["alpha"], tools := [], context_tags := [] }] }],
    estimated_agents := 3, strategy := "demo" }

def c4Outcomes : String → TaskOutcome String :=
  fun role => if role = "beta" then TaskOutcome.thrown "boom"
    else TaskOutcome.result okResult

/-- Witness for C4: a three-task two-phase plan in which one parallel-phase
task throws still completes the run. -/
theorem run_isolates_task_failures_witness :
    (((flatTasks c4Plan).map (fun p => p.role)).Nodup) ∧
    (runMinions strRuntime "demo" (Except.ok c4Plan) c4Outcomes 7 (initState String)).1.status =
      RunStatus.completed :=
  ⟨by decide,
    (run_isolates_task_failures strRuntime "demo" c4Plan c4Outcomes 7 (initState String)
      (by decide) (by decide) (by decide) (by decide)).1⟩

end Minions

